import Mathlib

/-!
Verification of the work-summary aggregation pipeline of the
`redmine-task-helper` repository (backend/app/services/work_summary_service.py,
backend/app/services/redmine_client.py, backend/app/services/gitlab_service.py).

The Python code is shallowly embedded: dictionaries become structures with
`Option` fields for possibly-missing keys, Python strings become Lean `String`
(lists of unicode code points, matching CPython semantics for `in`, `replace`,
slicing and lexicographic comparison), exceptions become `Except String`, and
the external collaborators (python-redmine, GitLab HTTP, the LLM chat
completion, image download) become oracle functions supplied as arguments.
All definitions are computable so that concrete runs can be evaluated inside
proofs.
-/

namespace WorkSummary

/-! ## Python string primitives

Python `str` operations used by the pipeline, modelled on `List Char`
(`String.data`).  `pyReplace` is CPython `str.replace` (left-to-right,
non-overlapping, all occurrences), `pyContains` is the `in` operator,
`pyTake n` is `s[:n]`, `dayPart` is `split("T")[0] if "T" in s else s`,
and `lexLt` is `<` on strings (code-point lexicographic). -/

def lexLt : List Char → List Char → Bool
  | [], [] => false
  | [], _ :: _ => true
  | _ :: _, [] => false
  | a :: as, b :: bs =>
    (decide (a.toNat < b.toNat)) || ((decide (a.toNat = b.toNat)) && lexLt as bs)

def strLt (a b : String) : Bool := lexLt a.data b.data

def strLe (a b : String) : Bool := strLt a b || a == b

def containsL (pat : List Char) : List Char → Bool
  | [] => pat.isPrefixOf []
  | c :: s => pat.isPrefixOf (c :: s) || containsL pat s

def pyContains (pat s : String) : Bool := containsL pat.data s.data

/-- Python `str.replace(pat, rep)`: replace every non-overlapping occurrence,
scanning left to right.  (The `pat = ""` corner case never occurs at any call
site of the embedded code; we return the string unchanged there.)  Structural
recursion on a fuel that starts at the string length; every step consumes at
least one character, so the fuel never runs out. -/
def replaceLAux (pat rep : List Char) : Nat → List Char → List Char
  | 0, s => s
  | _ + 1, [] => []
  | fuel + 1, c :: s =>
    if pat ≠ [] && pat.isPrefixOf (c :: s) then
      rep ++ replaceLAux pat rep fuel (s.drop (pat.length - 1))
    else
      c :: replaceLAux pat rep fuel s

def replaceL (pat rep s : List Char) : List Char :=
  replaceLAux pat rep s.length s

def pyReplace (s pat rep : String) : String := ⟨replaceL pat.data rep.data s.data⟩

def pyTake (n : Nat) (s : String) : String := ⟨s.data.take n⟩

def dayPart (s : String) : String := ⟨s.data.takeWhile (· ≠ 'T')⟩

def isPySpace (c : Char) : Bool :=
  c == ' ' || c == '\t' || c == '\n' || c == '\r' || c == '\x0b' || c == '\x0c'

/-- Python `str.strip()` (whitespace on both ends). -/
def pyStrip (s : String) : String :=
  ⟨((s.data.dropWhile isPySpace).reverse.dropWhile isPySpace).reverse⟩

def splitNlGo : List Char → List (List Char)
  | [] => [[]]
  | c :: rest =>
    if c = '\n' then [] :: splitNlGo rest
    else
      match splitNlGo rest with
      | [] => [[c]]
      | l :: ls => (c :: l) :: ls

/-- Python `s.split("\n")` (keeps empty segments; `""` yields `[""]`). -/
def splitNl (s : String) : List String := (splitNlGo s.data).map (fun l => ⟨l⟩)

/-- Python `s.lower()` restricted to its ASCII behaviour (sufficient here:
the only use is on URLs for the file-extension check). -/
def pyLower (s : String) : String := ⟨s.data.map Char.toLower⟩

def pyEndsWith (s sfx : String) : Bool := sfx.data.isSuffixOf s.data

def pyStartsWith (s pre : String) : Bool := pre.data.isPrefixOf s.data

/-- Decimal rendering of a natural number, the embedding of Python decimal
formatting of a non-negative int inside an f-string (fuel-structural; any
fuel above the value works, see `natDigitsAux_congr`). -/
def natDigitsAux : Nat → Nat → List Char
  | 0, _ => []
  | fuel + 1, n =>
    if n < 10 then [Char.ofNat (48 + n)]
    else natDigitsAux fuel (n / 10) ++ [Char.ofNat (48 + n % 10)]

def natDigits (n : Nat) : List Char := natDigitsAux (n + 1) n

def natStr (n : Nat) : String := ⟨natDigits n⟩

/-- Rendering of a Python int (may be negative; Redmine/GitLab ids are ints). -/
def intStr (i : Int) : String :=
  if i < 0 then "-" ++ natStr i.natAbs else natStr i.natAbs

/-- Rendering of `Option String` inside an f-string: `None` prints as "None". -/
def optStr (o : Option String) : String := o.getD "None"

/-- Python truthiness-aware `a or b` on an optional string:
`None` and `""` are falsy. -/
def orElseStr (a : Option String) (b : String) : String :=
  match a with
  | some s => if s = "" then b else s
  | none => b

/-! ## Image placeholder registry

Embedding of the mutable closure state of `_analyze_logs_node`
(work_summary_service.py lines 592-622): `img_placeholder_map` is an
insertion-ordered dict modelled as an association list, `img_counter` the
companion counter. -/

structure PhState where
  map : List (String × String)
  counter : Nat
deriving Repr, DecidableEq

def PhState.empty : PhState := ⟨[], 0⟩

def mkImgKey (n : Nat) : String := "IMG_PLACEHOLDER_" ++ natStr n

/-- Embedding of `get_img_placeholder(url)`: scan the map in insertion order
for an entry whose value equals `url` and return its key; otherwise mint
`IMG_PLACEHOLDER_<counter>`, append the pair to the map and bump the
counter. -/
def get_img_placeholder (st : PhState) (url : String) : String × PhState :=
  match st.map.find? (fun kv => kv.2 == url) with
  | some kv => (kv.1, st)
  | none =>
    let key := mkImgKey st.counter
    (key, ⟨st.map ++ [(key, url)], st.counter + 1⟩)

/-- Stateful mapping of `get_img_placeholder` over a url list
(`[get_img_placeholder(url) for url in image_urls]`). -/
def getPlaceholders (st : PhState) : List String → List String × PhState
  | [] => ([], st)
  | u :: us =>
    let r1 := get_img_placeholder st u
    let rs := getPlaceholders r1.2 us
    (r1.1 :: rs.1, rs.2)

/-- The `issue_images_data` dict: (project, user) keyed lists of
(issue id, subject, placeholder keys). -/
abbrev ImgData := List ((String × String) × List (Int × String × List String))

def lookupImgData (d : ImgData) (key : String × String) :
    List (Int × String × List String) :=
  match d.find? (fun kv => kv.1 == key) with
  | some kv => kv.2
  | none => []

/-- Python dict assignment `d[key] = v` (overwrite in place, append new keys
at the end, preserving insertion order). -/
def setImgData (d : ImgData) (key : String × String)
    (v : List (Int × String × List String)) : ImgData :=
  if d.any (fun kv => kv.1 == key) then
    d.map (fun kv => if kv.1 == key then (key, v) else kv)
  else d ++ [(key, v)]

/-- Embedding of `register_issue_images` (lines 610-622). -/
def register_issue_images (st : PhState) (d : ImgData) (p u : String)
    (issue_id : Int) (subject : String) (image_urls : List String) :
    PhState × ImgData :=
  if image_urls.isEmpty then (st, d)
  else
    let key := (p, u)
    let entries := lookupImgData d key
    let existing_ids := entries.map (fun x => x.1)
    if existing_ids.contains issue_id then (st, d)
    else
      let r := getPlaceholders st image_urls
      (r.2, setImgData d key (entries ++ [(issue_id, subject, r.1)]))

/-! ## Journals: `RedmineService.get_issue_journals` and the pipeline filter

`RawJournal` is the duck-typed journal object of python-redmine (the journal
on the wire carries `user.id`, kept here as `user_id`);  `Journal` is the
simplified dict built by `get_issue_journals` (redmine_client.py lines
297-316), which copies only the keys `id`, `notes`, `created_on` and `user` —
a missing dict key is `none`, so `user_id := none` by construction. -/

structure RawJournal where
  id : Int
  notes : Option String
  created_on : String
  user : Option String
  user_id : Option Int
deriving Repr, DecidableEq

structure Journal where
  id : Int
  notes : String
  created_on : String
  user : String
  user_id : Option Int
deriving Repr, DecidableEq

/-- Body of `get_issue_journals`: keep journals with non-blank notes and build
the four-key dict (the key `user_id` is never among them). -/
def journals_from_raw (raw : List RawJournal) : List Journal :=
  raw.filterMap (fun j =>
    let notes := j.notes.getD ""
    if notes ≠ "" && pyStrip notes ≠ "" then
      some { id := j.id, notes := notes, created_on := j.created_on,
             user := j.user.getD "Unknown", user_id := none }
    else none)

/-- Embedding of `get_issue_journals` given the oracle result of
`redmine.issue.get(issue_id, include=["journals"])`; any exception yields
`[]` (the functions own `except` branch catches it). -/
def get_issue_journals (result : Except String (List RawJournal)) :
    List Journal :=
  match result with
  | .error _ => []
  | .ok raw => journals_from_raw raw

/-- The per-journal filter of `_fetch_logs_node` (work_summary_service.py
lines 386-401): the journal is admitted only when `j.get("user_id")` is
truthy (non-`None`, non-zero) and a member of the target user id set, and the
day part of `created_on` lies in `[start_date, end_date]` (Python string
comparison). -/
def journal_passes (users_set : List Int) (start_date end_date : String)
    (j : Journal) : Bool :=
  let j_date_day := dayPart j.created_on
  let is_target_user :=
    match j.user_id with
    | some uid => uid ≠ 0 && users_set.contains uid
    | none => false
  is_target_user && (strLe start_date j_date_day && strLe j_date_day end_date)

def filtered_journals (users_set : List Int) (start_date end_date : String)
    (js : List Journal) : List Journal :=
  js.filter (journal_passes users_set start_date end_date)

/-! ## Data records produced by the fetch stage -/

structure IssueRec where
  id : Int
  project_id : Int
  project_name : String
  subject : String
  status : String
  created_on : String
  closed_on : String
  updated_on : String
  journals : List Journal
  description : String
  attachment_map : List (String × String)
  images : List String
  author_name : String
  assigned_to_name : String
deriving Repr, DecidableEq

/-- A time entry as extracted in `_fetch_logs_node` lines 339-353.  The float
formatting of `hours` is opaque to every claim and is carried as its rendered
text. -/
structure TimeEntryRec where
  date : String
  hours : String
  user : String
  issue_id : String
  comments : String
  project_name : String
deriving Repr, DecidableEq

structure CommitRec where
  id : String
  project_id : Int
  author_name : Option String
  created_at : String
  message : String
  additions : Nat
  deletions : Nat
  web_url : Option String
deriving Repr, DecidableEq

structure MrRec where
  iid : Int
  project_id : Int
  author_name : Option String
  updated_at : String
  state : String
  title : String
  web_url : Option String
  notes_summary : Option String
deriving Repr, DecidableEq

/-! ## Grouping engine (`_analyze_logs_node` lines 571-707)

Each `add_to_group(project, user, line, source)` call is one `GroupEvent`;
the nested dict `grouped_data` is recovered from the event list by
first-occurrence order (`projOrder`, `userOrder`) and order-preserving
filtering (`bucketLines`), which is exactly what insertion-ordered nested
dicts produce. -/

inductive SourceKind
  | redmine
  | gitlab
deriving Repr, DecidableEq

structure GroupEvent where
  project : String
  user : String
  line : String
  source : SourceKind
deriving Repr, DecidableEq

def issueLink (redmine_base : String) (id : Int) : String :=
  if redmine_base ≠ "" then redmine_base ++ "/issues/" ++ intStr id
  else "issues/" ++ intStr id

/-- The in-note image-to-placeholder substitution of lines 643-647 (stateful:
placeholders are minted on first use). -/
def substNoteImages (images : List String) (st : PhState) (note : String) :
    String × PhState :=
  images.foldl (fun acc url =>
    if pyContains url acc.1 then
      let r := get_img_placeholder acc.2 url
      (pyReplace acc.1 url r.1, r.2)
    else acc) (note, st)

def journalLine (i : IssueRec) (link subject_clean note_preview : String)
    (j : Journal) : String :=
  "- " ++ pyTake 10 j.created_on ++ " | [#" ++ intStr i.id ++ " " ++
    subject_clean ++ "](" ++ link ++ ") | Created:" ++ pyTake 10 i.created_on ++
    " | Closed:" ++ pyTake 10 i.closed_on ++ " | " ++ note_preview

/-- The journal loop of lines 639-658: one redmine line per (already
filtered) journal, attributed to the journal author name, threading the
placeholder state and the per-bucket image registry. -/
def journal_loop (rb : String) (i : IssueRec) (st : PhState) (d : ImgData) :
    List Journal → List GroupEvent × PhState × ImgData
  | [] => ([], st, d)
  | j :: js =>
    let p_name := i.project_name
    let link := issueLink rb i.id
    let subject_clean := pyReplace i.subject "|" "-"
    let u_name := j.user
    let note0 := pyReplace j.notes "\n" " "
    let r1 := substNoteImages i.images st note0
    let line := journalLine i link subject_clean r1.1 j
    let r2 :=
      if i.images.isEmpty then (r1.2, d)
      else register_issue_images r1.2 d p_name u_name i.id subject_clean i.images
    let rest := journal_loop rb i r2.1 r2.2 js
    (⟨p_name, u_name, line, .redmine⟩ :: rest.1, rest.2.1, rest.2.2)

/-- Fallback attribution (lines 633-635): assignee unless it is the literal
sentinel "Unknown", else the author name (which may itself be "Unknown"). -/
def fallback_user (i : IssueRec) : String :=
  if i.assigned_to_name = "Unknown" then i.author_name else i.assigned_to_name

def fallbackLine (rb : String) (i : IssueRec) : String :=
  "- " ++ dayPart i.updated_on ++ " | [#" ++ intStr i.id ++ " " ++
    pyReplace i.subject "|" "-" ++ "](" ++ issueLink rb i.id ++
    ") | Created:" ++ pyTake 10 i.created_on ++ " | Closed:" ++
    pyTake 10 i.closed_on ++ " | (Issue Updated)"

/-- The synthetic "(Issue Updated)" event appended by lines 660-672. -/
def fallbackEvent (rb : String) (i : IssueRec) : GroupEvent :=
  ⟨i.project_name, fallback_user i, fallbackLine rb i, .redmine⟩

/-- Per-issue grouping (lines 626-672): journal lines, then - when no journal
passed the filter and the `updated_on` day of the issue itself is truthy and inside
the window - exactly one synthetic "(Issue Updated)" line attributed to the
fallback user. -/
def process_issue (rb start_date end_date : String) (st : PhState)
    (d : ImgData) (i : IssueRec) : List GroupEvent × PhState × ImgData :=
  let r1 := journal_loop rb i st d i.journals
  let updated_on_day := dayPart i.updated_on
  if i.journals.isEmpty && updated_on_day ≠ "" &&
      strLe start_date updated_on_day && strLe updated_on_day end_date then
    let r2 :=
      if i.images.isEmpty then (r1.2.1, r1.2.2)
      else register_issue_images r1.2.1 r1.2.2 i.project_name (fallback_user i)
        i.id (pyReplace i.subject "|" "-") i.images
    (r1.1 ++ [fallbackEvent rb i], r2.1, r2.2)
  else r1

def processIssues (rb start_date end_date : String) (st : PhState)
    (d : ImgData) : List IssueRec → List GroupEvent × PhState × ImgData
  | [] => ([], st, d)
  | i :: is =>
    let r1 := process_issue rb start_date end_date st d i
    let r2 := processIssues rb start_date end_date r1.2.1 r1.2.2 is
    (r1.1 ++ r2.1, r2.2.1, r2.2.2)

def timeEntryEvent (te : TimeEntryRec) : GroupEvent :=
  ⟨te.project_name, te.user,
   "- " ++ te.date ++ " | Issue #" ++ te.issue_id ++ " | " ++ te.hours ++
     "h | " ++ te.comments, .redmine⟩

def lookupPmap (m : List (Int × String)) (k : Int) (dflt : String) : String :=
  match m.find? (fun kv => kv.1 == k) with
  | some kv => kv.2
  | none => dflt

def commitEvent (pmap : List (Int × String)) (c : CommitRec) : GroupEvent :=
  ⟨lookupPmap pmap c.project_id "Code Updates",
   c.author_name.getD "Unknown Dev",
   "- " ++ pyTake 10 c.created_at ++ " | COMMIT | " ++
     pyReplace c.message "\n" " " ++ " (+" ++ natStr c.additions ++ " -" ++
     natStr c.deletions ++ ") | [View](" ++ optStr c.web_url ++ ")",
   .gitlab⟩

def mrEvent (pmap : List (Int × String)) (mr : MrRec) : GroupEvent :=
  let notes :=
    if (mr.notes_summary.getD "") ≠ "" then
      " | Notes: " ++ mr.notes_summary.getD ""
    else ""
  ⟨lookupPmap pmap mr.project_id "Code Updates",
   mr.author_name.getD "Unknown Dev",
   "- " ++ pyTake 10 mr.updated_at ++ " | MR | " ++ mr.title ++ " (" ++
     mr.state ++ ")" ++ notes ++ " | [View](" ++ optStr mr.web_url ++ ")",
   .gitlab⟩

/-- The full grouping pass: issues, then time entries, then commits, then
merge requests, in the source order of `_analyze_logs_node`. -/
def group_events (rb start_date end_date : String) (issues : List IssueRec)
    (tes : List TimeEntryRec) (commits : List CommitRec) (mrs : List MrRec)
    (pmap : List (Int × String)) : List GroupEvent × PhState × ImgData :=
  let r := processIssues rb start_date end_date PhState.empty [] issues
  (r.1 ++ tes.map timeEntryEvent ++ commits.map (commitEvent pmap) ++
    mrs.map (mrEvent pmap), r.2.1, r.2.2)

def dedupKeepFirstAux (seen : List String) : List String → List String
  | [] => []
  | x :: xs =>
    if seen.contains x then dedupKeepFirstAux seen xs
    else x :: dedupKeepFirstAux (seen ++ [x]) xs

def dedupKeepFirst (l : List String) : List String := dedupKeepFirstAux [] l

/-- Projects in first-insertion order (iteration order of the outer dict). -/
def projOrder (events : List GroupEvent) : List String :=
  dedupKeepFirst (events.map (·.project))

/-- Users of one project in first-insertion order (iteration order of the
inner dict). -/
def userOrder (events : List GroupEvent) (p : String) : List String :=
  dedupKeepFirst ((events.filter (fun e => e.project == p)).map (·.user))

/-- Lines of one bucket and source kind, in append order. -/
def bucketLines (events : List GroupEvent) (p u : String)
    (src : SourceKind) : List String :=
  (events.filter
    (fun e => e.project == p && e.user == u && e.source == src)).map (·.line)

/-! ## Analyze stage (`_analyze_logs_node` lines 709-1062)

External collaborators become oracles: `llm` is
`OpenAIService.chat_completion` on (role, content) message lists (returns the
text or raises), `dl` is `RedmineService.download_file` (`none` models both an
exception and a `None` result; `some ""` models empty bytes, which Python
treats as falsy), and `md5hex` abstracts `hashlib.md5(url).hexdigest()`.
The filesystem side effects (`_cleanup_temp_files`, writing the cache file,
`error_dump_to_txt`) do not influence the produced text and are not
modelled. -/

structure AnalyzeOracles where
  llm : List (String × String) → Except String String
  dl : String → Option String
  md5hex : String → String

def joinLines (ls : List String) : String := String.intercalate "\n" ls

/-- Prompt of the Redmine chunk call (lines 725-760).  The decorative
indentation margin of the Python triple-quoted f-string is not reproduced;
no claim depends on it. -/
def redminePrompt (lang p_name u_name text : String) : String :=
  joinLines [
    "",
    "Task: Summarize Redmine tasks/logs for this user.",
    "Language: " ++ lang,
    "Project: " ++ p_name ++ " | User: " ++ u_name,
    "Logs:",
    text,
    "",
    "Instruction:",
    "1. **Overall Summary**: Provide a high-level summary of the user\x27s main contributions and focus areas in this project for the given period.",
    "   - **IMPORTANT**: In the text, refer to issues by their **Subject/Title** (e.g. \"Fixed auth bug\") instead of Issue IDs (e.g. \"#123\") to ensure readability.",
    "2. **Work Items List**: Create a markdown table with the following columns:",
    "    - Issue ID (with link if using markdown []())",
    "    - **Subject** (Exact title from logs - THIS IS MANDATORY AND MUST BE PRESERVED)",
    "    - Status",
    "    - **Duration / Timeline**:",
    "        - If Open: \"Created <date> (Open for X days)\" - Calculate days from Created Date to Report End Date.",
    "        - If Closed: \"Created <date>, Closed <date>\"",
    "    - Updated Time (Last update in logs)",
    "    - Spent Hours (Sum up time entries if any)",
    "    - **Item Summary** (Critical): Explain what was done, key results, and any pending action items or follow-ups required.",
    "",
    "CRITICAL REQUIREMENTS:",
    "- The Subject column must ALWAYS contain the exact issue title from the logs",
    "- Never leave the Subject column empty or use generic text like \"Untitled\"",
    "",
    "**DO NOT include any attachments or images section. Attachments are handled separately.**",
    "",
    "Output Format:",
    "#### 🔴 Redmine Tasks",
    "**Summary**: ...",
    "",
    "| Issue | Subject | Status | Timeline | Updated | Hours | Summary & Actions |",
    "|-------|---------|--------|----------|---------|-------|-------------------|",
    "..."]

/-- Prompt of the GitLab chunk call (lines 773-792). -/
def gitlabPrompt (lang p_name u_name text : String) : String :=
  joinLines [
    "",
    "Task: Summarize GitLab activity for this user.",
    "Language: " ++ lang,
    "Project: " ++ p_name ++ " | User: " ++ u_name,
    "Logs:",
    text,
    "",
    "Instruction:",
    "1. Overall Code Summary.",
    "2. Code Activity Table (Date, Type, Summary, Link).",
    "Requirements: Use exact links from logs.",
    "",
    "Output Format:",
    "#### 🦊 GitLab Activity",
    "**Summary**: ...",
    "",
    "| Date | Type | Summary | Link |",
    "|------|------|---------|------|",
    "..."]

/-- Prompt of the project synthesizer call (lines 897-913). -/
def projectSummaryPrompt (lang start_date end_date p_name text_redmine
    text_gitlab : String) : String :=
  joinLines [
    "",
    "Task: Create a high-level Project Summary for \x27" ++ p_name ++ "\x27.",
    "Language: " ++ lang,
    "Range: " ++ start_date ++ " to " ++ end_date,
    "",
    "Logs:",
    text_redmine,
    text_gitlab,
    "",
    "Instruction:",
    "Summarize the overall progress, major achievements, and key events for this project purely based on the logs.",
    "Do not list every single task. Focus on the big picture.",
    "",
    "Output Format:",
    "### " ++ p_name ++ " - Summary",
    "(Summary Text Here)"]

/-- Prompt of the grand-summary reduce call (lines 1015-1026). -/
def reducePrompt (lang context : String) : String :=
  joinLines [
    "",
    "Task: Create an Executive Summary for the following project work reports.",
    "Language: " ++ lang,
    "",
    "Reports:",
    context,
    "",
    "Instruction:",
    "- Synthesize a high-level \"Grand Summary\" that covers the key achievements across ALL projects and users.",
    "- Do NOT list every detail again. Focus on big picture progress, major milestones completed, and overall status.",
    "- Keep it concise (1-2 paragraphs)."]

/-- File extension chosen by `_save_temp_image` (lines 91-99). -/
def extFor (url : String) : String :=
  let lower := pyLower url
  if pyEndsWith lower ".jpg" || pyEndsWith lower ".jpeg" then ".jpg"
  else if pyEndsWith lower ".gif" then ".gif"
  else if pyEndsWith lower ".webp" then ".webp"
  else ".png"

/-- Local cache reference returned by `_save_temp_image` (lines 86-122):
`/temp_images/<md5-of-url><ext>`. -/
def save_temp_image (A : AnalyzeOracles) (url : String) : String :=
  "/temp_images/" ++ A.md5hex url ++ extFor url

/-- Placeholder restoration loop of `analyze_chunk` (lines 835-858): iterate
the placeholder map in insertion order; whenever the key still occurs in the
text, download the image and substitute the local cache reference, or the
original url on a falsy download result or an exception. -/
def restore_placeholders (A : AnalyzeOracles)
    (phMap : List (String × String)) (text : String) : String :=
  phMap.foldl (fun res kv =>
    if pyContains kv.1 res then
      match A.dl kv.2 with
      | some content =>
        if content ≠ "" then pyReplace res kv.1 (save_temp_image A kv.2)
        else pyReplace res kv.1 kv.2
      | none => pyReplace res kv.1 kv.2
    else res) text

def lookupPh (phMap : List (String × String)) (ph : String) : Option String :=
  (phMap.find? (fun kv => kv.1 == ph)).map (fun kv => kv.2)

/-- Attachments section of `analyze_chunk` (lines 809-830): one markdown
image line per registered placeholder, skipping unknown or falsy urls and
deduplicating by resolved url. -/
def attachmentsSection (phMap : List (String × String))
    (entries : List (Int × String × List String)) : String :=
  (entries.foldl (fun acc e =>
    e.2.2.foldl (fun acc ph =>
      match lookupPh phMap ph with
      | none => acc
      | some url =>
        if url = "" then acc
        else if acc.2.contains url then acc
        else (acc.1 ++ "\n![" ++ ("Issue #" ++ intStr e.1 ++ " - " ++ e.2.1 ++
          " - Screenshot") ++ "](" ++ ph ++ ")\n", acc.2 ++ [url])) acc)
    ("", ([] : List String))).1

/-- Embedding of `analyze_chunk` (lines 715-860): up to two LLM calls (their
exceptions degrade to inline error strings), the `### project - user`
heading, the deterministic attachments section, then placeholder
restoration over the full chunk text. -/
def analyze_chunk (A : AnalyzeOracles) (phMap : List (String × String))
    (d : ImgData) (lang p_name u_name : String)
    (redmine_lines gitlab_lines : List String) : String :=
  if redmine_lines.isEmpty && gitlab_lines.isEmpty then ""
  else
    let redmine_result :=
      if redmine_lines.isEmpty then ""
      else
        match A.llm [("system", "You are a Project Manager Assistant."),
          ("user", redminePrompt lang p_name u_name (joinLines redmine_lines))] with
        | .ok res => res
        | .error e => "(Redmine AI Error: " ++ e ++ ")"
    let gitlab_result :=
      if gitlab_lines.isEmpty then ""
      else
        match A.llm [("system", "You are a Tech Lead Assistant."),
          ("user", gitlabPrompt lang p_name u_name (joinLines gitlab_lines))] with
        | .ok res => res
        | .error e => "(GitLab AI Error: " ++ e ++ ")"
    let base0 := "### " ++ p_name ++ " - " ++ u_name ++ "\n\n"
    let base1 :=
      if redmine_result ≠ "" then base0 ++ redmine_result ++ "\n\n" else base0
    let base2 :=
      if gitlab_result ≠ "" then base1 ++ gitlab_result ++ "\n\n" else base1
    let image_entries := lookupImgData d (p_name, u_name)
    let base3 :=
      if image_entries.isEmpty then base2
      else base2 ++ "\n#### Attachments\n" ++
        attachmentsSection phMap image_entries
    restore_placeholders A phMap base3

/-- Embedding of `generate_project_summary_task` (lines 891-922): one LLM
call over the concatenated project lines; an exception degrades to the
inline error heading.  Note: no placeholder restoration happens here. -/
def generate_project_summary_task (A : AnalyzeOracles)
    (lang start_date end_date p_name : String)
    (redmine_lines gitlab_lines : List String) : String :=
  if redmine_lines.isEmpty && gitlab_lines.isEmpty then ""
  else
    match A.llm [("system", "You are a Project Manager."),
      ("user", projectSummaryPrompt lang start_date end_date p_name
        (joinLines redmine_lines) (joinLines gitlab_lines))] with
    | .ok res => res ++ "\n\n"
    | .error e =>
      "### " ++ p_name ++ " - Summary\n(Error generating summary: " ++ e ++
        ")\n\n"

/-- One produced section: the `(project_name, sort_key, content)` triples of
`ordered_chunks`/`final_items`; the project synthesizer carries the sentinel
sort key "00_SUMMARY". -/
structure ChunkItem where
  project : String
  sortKey : String
  content : String
deriving Repr, DecidableEq

/-- Python tuple comparison `(p, u) <= (q, v)` on string pairs. -/
def pairLe (x y : String × String) : Bool :=
  strLt x.1 y.1 || (x.1 == y.1 && strLe x.2 y.2)

def chunkRel (a b : ChunkItem) : Prop :=
  pairLe (a.project, a.sortKey) (b.project, b.sortKey) = true

instance : DecidableRel chunkRel := fun a b => by
  unfold chunkRel
  infer_instance

/-- All lines of one source kind across the buckets of one project, in user
insertion order (lines 885-889). -/
def projectLines (events : List GroupEvent) (p : String)
    (src : SourceKind) : List String :=
  ((userOrder events p).map (fun u => bucketLines events p u src)).flatten

/-- Construction of `ordered_chunks` (lines 876-931): per project in dict
order, one project-summary item with sort key "00_SUMMARY" followed by one
chunk item per user in dict order.  Contents are the awaited task results;
`asyncio.gather` returns them in task order, so completion order is
irrelevant to the assembled value. -/
def orderedChunkItems (A : AnalyzeOracles) (events : List GroupEvent)
    (phMap : List (String × String)) (d : ImgData)
    (lang start_date end_date : String) : List ChunkItem :=
  (projOrder events).flatMap (fun p =>
    ⟨p, "00_SUMMARY",
      generate_project_summary_task A lang start_date end_date p
        (projectLines events p .redmine) (projectLines events p .gitlab)⟩ ::
    (userOrder events p).map (fun u =>
      ⟨p, u, analyze_chunk A phMap d lang p u
        (bucketLines events p u .redmine) (bucketLines events p u .gitlab)⟩))

/-- The stable sort of `final_items` by `(project, sort_key)` (lines
943-954); CPython `list.sort` is stable, as is `List.insertionSort`. -/
def sortChunkItems (items : List ChunkItem) : List ChunkItem :=
  List.insertionSort chunkRel items

/-- The per-report excerpt loop feeding the grand summary (lines 981-1008):
keep `### x - y` identity headers, start capturing at "#### Overall
Summary", stop at "#### Work Items" / "#### Attachments". -/
def extractOverall (report : String) : List String :=
  ((splitNl report).foldl (fun acc line =>
    let stripped := pyStrip line
    if pyStartsWith stripped "### " && pyContains " - " stripped then
      (acc.1 ++ [line], acc.2)
    else if pyContains "#### Overall Summary" stripped then
      (acc.1 ++ [line], true)
    else if pyContains "#### Work Items" stripped ||
        pyContains "#### Attachments" stripped then
      (acc.1, false)
    else if acc.2 then (acc.1 ++ [line], acc.2)
    else acc) (([] : List String), false)).1

structure TechEntry where
  language : String
  percentage : String
deriving Repr, DecidableEq

/-- Per-instance GitLab metrics as consumed by the report appendix (lines
1041-1060).  The integer fields mirror `analyze_impact`/`calculate_cycle_time`
outputs; percentage and the `:.1f`-formatted average cycle hours involve
float arithmetic and are carried as their display strings. -/
structure MetricsInst where
  name : String
  total_commits : Nat
  additions : Nat
  deletions : Nat
  tech_stack : List TechEntry
  avg_cycle_hours_disp : String
  opened_count : Nat
  merged_count : Nat
  total_review_notes : Nat
deriving Repr, DecidableEq

/-- The deterministic GitLab metrics dashboard appended to the report (lines
1040-1060); empty when no instance metrics were computed. -/
def metricsAppendix (metrics : List MetricsInst) : String :=
  if metrics.isEmpty then ""
  else
    metrics.foldl (fun acc inst =>
      let techPart :=
        if inst.tech_stack.isEmpty then ""
        else
          "- **技術重心**: " ++
            String.intercalate ", "
              (inst.tech_stack.map
                (fun t => t.language ++ " (" ++ t.percentage ++ "%)")) ++ "\n"
      acc ++ "### " ++ inst.name ++ "\n" ++
        "- **代碼產出**: " ++ natStr inst.total_commits ++ " Commits, +" ++
          natStr inst.additions ++ " / -" ++ natStr inst.deletions ++
          " Lines\n" ++
        techPart ++
        "- **審查效率**: 平均 MR 合併時間 " ++ inst.avg_cycle_hours_disp ++
          " 小時\n" ++
        "- **協作活躍**: " ++ natStr inst.opened_count ++ " 個新 MR, " ++
          natStr inst.merged_count ++ " 個已合併, 共 " ++
          natStr inst.total_review_notes ++ " 則評論\n")
      "\n\n---\n\n## GitLab 代碼脈動 (GitLab Pulse)\n"

/-- Full embedding of `_analyze_logs_node`: group, summarize (map phase),
sort, reduce with the grand summary (whose failure degrades to the fixed
fallback block), and append the metrics dashboard. -/
def analyze_logs (A : AnalyzeOracles) (rb lang start_date end_date : String)
    (issues : List IssueRec) (tes : List TimeEntryRec)
    (commits : List CommitRec) (mrs : List MrRec)
    (pmap : List (Int × String)) (metrics : List MetricsInst) : String :=
  let g := group_events rb start_date end_date issues tes commits mrs pmap
  let events := g.1
  let phMap := g.2.1.map
  let d := g.2.2
  let items := orderedChunkItems A events phMap d lang start_date end_date
  let final_items := sortChunkItems items
  let summaries0 := (final_items.map (fun it => it.content)).filter (· ≠ "")
  let chunk_summaries :=
    if summaries0.isEmpty then
      ["(No specific work logs found for target users in this period.)"]
    else summaries0
  let header := "# 工作總結報告 (" ++ start_date ++ " ~ " ++ end_date ++ ")\n\n"
  let combined_chunk_text := String.intercalate "\n\n" chunk_summaries
  let summary_context := (chunk_summaries.map extractOverall).flatten
  let grand_summary :=
    match A.llm [("system", "You are a Project Manager Director."),
      ("user", reducePrompt lang (joinLines summary_context))] with
    | .ok res => "## 總體摘要\n" ++ res ++ "\n\n---\n\n"
    | .error _ =>
      "## 總體摘要\n(自動生成失敗 - 請檢查後台日誌或降低報告範圍)\n\n---\n\n"
  header ++ grand_summary ++ combined_chunk_text ++ metricsAppendix metrics

/-! ## Fetch stage (`_fetch_logs_node` lines 221-533)

The python-redmine and GitLab HTTP boundaries become oracles returning
`Except String` (an exception carries its message).  `RawIssue` is the
duck-typed issue object of `redmine.issue.filter`: `project_id` is `none`
when `issue.project.id` raises (the issue is skipped), the `getattr`
defaults of lines 276-319 are absorbed into the record fields.  The image
notation regex `img_re` together with the `m[0] or m[1]` truthiness test is
abstracted as the `imgRefs` parameter (no claim concerns the notation
parsing itself); `resolveRef` is the `resolve_url` closure.  The dead
`raw_logs` text (built in lines 355-433, never read by the analyze node or
the report) is not modelled, and `datetime.fromisoformat` on the request
dates (line 447) is assumed to succeed (well-formed dates). -/

structure RawIssue where
  id : Int
  project_id : Option Int
  project_name : String
  subject : String
  status_name : String
  created_on : String
  closed_on : String
  updated_on : String
  description : String
  attachments : List (String × String)
  author_name : String
  assigned_to_name : String
deriving Repr, DecidableEq

structure RedmineOracle where
  search_issues : Except String (List RawIssue)
  issue_journals : Int → Except String (List RawJournal)
  time_entries : Int → Except String (List TimeEntryRec)

/-- Embedding of `search_issues_advanced` (redmine_client.py lines 164-244):
the whole body is wrapped in `try/except` returning `[]`. -/
def search_issues_advanced (o : RedmineOracle) : List RawIssue :=
  match o.search_issues with
  | .ok l => l
  | .error _ => []

/-- Embedding of `search_time_entries` (lines 246-295): every exception is
caught internally and yields `[]` (or a partial per-user result); the
`getattr` extraction of `_fetch_logs_node` lines 339-353 is absorbed into
`TimeEntryRec`. -/
def search_time_entries_client (o : RedmineOracle) (pid : Int) :
    List TimeEntryRec :=
  match o.time_entries pid with
  | .ok l => l
  | .error _ => []

def dictSetStr (m : List (String × String)) (k v : String) :
    List (String × String) :=
  if m.any (fun kv => kv.1 == k) then
    m.map (fun kv => if kv.1 == k then (k, v) else kv)
  else m ++ [(k, v)]

def dictSetInt (m : List (Int × String)) (k : Int) (v : String) :
    List (Int × String) :=
  if m.any (fun kv => kv.1 == k) then
    m.map (fun kv => if kv.1 == k then (k, v) else kv)
  else m ++ [(k, v)]

/-- Attachment filename → content url dict (lines 282-286). -/
def buildAttachmentMap (atts : List (String × String)) :
    List (String × String) :=
  atts.foldl (fun m a => dictSetStr m a.1 a.2) []

/-- The `resolve_url` closure (lines 369-373). -/
def resolveRef (attachment_map : List (String × String)) (ref : String) :
    String :=
  match attachment_map.find? (fun kv => kv.1 == ref) with
  | some kv => kv.2
  | none => ref

/-- Issue filtering and structuring (lines 239-323): keep issues whose
project id resolves and is targeted and whose `updated_on` day does not
exceed the end date; fetch journals (the inner `try` and
`get_issue_journals` both degrade to `[]`) and build the structured dict. -/
def clientFilteredIssues (o : RedmineOracle) (projects_set : List Int)
    (end_date : String) : List IssueRec :=
  (search_issues_advanced o).filterMap (fun raw =>
    match raw.project_id with
    | none => none
    | some pid =>
      if projects_set.contains pid then
        let updated_on_str := raw.updated_on
        let include_issue :=
          if updated_on_str ≠ "" then
            !(strLt end_date (dayPart updated_on_str))
          else true
        if include_issue then
          some { id := raw.id, project_id := pid,
                 project_name := raw.project_name, subject := raw.subject,
                 status := raw.status_name, created_on := raw.created_on,
                 closed_on := raw.closed_on, updated_on := updated_on_str,
                 journals := get_issue_journals (o.issue_journals raw.id),
                 description := raw.description,
                 attachment_map := buildAttachmentMap raw.attachments,
                 images := [], author_name := raw.author_name,
                 assigned_to_name := raw.assigned_to_name }
        else none
      else none)

/-- The per-issue second pass (lines 363-427): collect resolved image
references from the description and from the journals passing the user+date
filter, overwrite `journals` with the filtered list and `images` with the
deduplicated reference list.  (`list(set(..))` has unspecified order in
CPython; first-occurrence order is taken here.) -/
def refineIssue (imgRefs : String → List String) (users_set : List Int)
    (start_date end_date : String) (i : IssueRec) : IssueRec :=
  let desc_imgs := (imgRefs i.description).map (resolveRef i.attachment_map)
  let fj := filtered_journals users_set start_date end_date i.journals
  let j_imgs :=
    (fj.map (fun j => (imgRefs j.notes).map (resolveRef i.attachment_map))).flatten
  { i with journals := fj, images := dedupKeepFirst (desc_imgs ++ j_imgs) }

structure DiffRec where
  new_path : Option String
  old_path : Option String
deriving Repr, DecidableEq

structure NoteRec where
  system : Option Bool
  created_at : String
  author_name : Option String
  body : String
deriving Repr, DecidableEq

/-- Per-instance GitLab HTTP boundary: `get_commits`/`get_merge_requests`
raise on failure (their `_get` re-raises), `commit_diff_http`/`notes_http`
are the raw `_get` calls used by the three detail helpers. -/
structure GitLabOracle where
  get_commits : Int → Except String (List CommitRec)
  get_merge_requests : Int → Except String (List MrRec)
  commit_diff_http : Int → String → Except String (List DiffRec)
  notes_http : Int → Int → Except String (List NoteRec)

def lastDotSeg (s : String) : String :=
  ⟨(s.data.reverse.takeWhile (· ≠ '.')).reverse⟩

/-- Embedding of `GitLabService.get_commit_diff_extensions` (gitlab_service.py
lines 107-119): catches every exception and returns `[]`. -/
def get_commit_diff_extensions (gl : GitLabOracle) (pid : Int)
    (sha : String) : List String :=
  match gl.commit_diff_http pid sha with
  | .error _ => []
  | .ok diffs =>
    diffs.filterMap (fun dd =>
      let path := orElseStr dd.new_path (dd.old_path.getD "")
      if path ≠ "" && pyContains "." path then
        some (pyLower (lastDotSeg path))
      else none)

/-- Embedding of `GitLabService.get_mr_notes_count` (lines 85-89): counts
non-system notes; it has NO try/except, so an HTTP failure propagates. -/
def get_mr_notes_count (gl : GitLabOracle) (pid iid : Int) :
    Except String Nat :=
  match gl.notes_http pid iid with
  | .error e => .error e
  | .ok notes => .ok ((notes.filter (fun n => n.system == some false)).length)

def noteRel (a b : NoteRec) : Prop := strLe b.created_at a.created_at = true

instance : DecidableRel noteRel := fun a b => by
  unfold noteRel
  infer_instance

/-- Embedding of `GitLabService.get_mr_notes_snippet` (lines 91-105): newest
non-system notes first (stable descending sort on `created_at`), at most
`limit`, `author: body[:100]` joined by " | "; every exception yields "". -/
def get_mr_notes_snippet (gl : GitLabOracle) (pid iid : Int)
    (limit : Nat := 5) : String :=
  match gl.notes_http pid iid with
  | .error _ => ""
  | .ok notes =>
    let user_notes := notes.filter (fun n => n.system == some false)
    let sorted := List.insertionSort noteRel user_notes
    let snippet := (sorted.take limit).map (fun n =>
      (n.author_name.getD "Unknown") ++ ": " ++
        pyTake 100 (pyReplace n.body "\n" " "))
    if snippet.isEmpty then "" else String.intercalate " | " snippet

structure WatchlistRec where
  gitlab_project_id : Int
  project_name : String
deriving Repr, DecidableEq

/-- One `GitLabInstance` row with its watchlists and its HTTP oracle.
`compute_metrics` bundles `analyze_impact`, `calculate_cycle_time` and
`process_commits_for_heatmap` (float arithmetic, abstracted; its `name`
field is overwritten with the instance name by the fetch loop). -/
structure InstanceRec where
  instance_name : String
  watchlists : List WatchlistRec
  gl : GitLabOracle
  compute_metrics :
    List CommitRec → List (List String) → List MrRec → List Nat → MetricsInst

/-- The per-watchlist loop (lines 464-479): a commit-listing failure skips
the watchlist, a merge-request-listing failure after a successful commit
listing keeps the commits; fetched records get the watchlist project id
injected. -/
def watchLoop (gl : GitLabOracle) (acc_c : List CommitRec)
    (acc_m : List MrRec) : List WatchlistRec → List CommitRec × List MrRec
  | [] => (acc_c, acc_m)
  | wl :: wls =>
    match gl.get_commits wl.gitlab_project_id with
    | .error _ => watchLoop gl acc_c acc_m wls
    | .ok cs =>
      let cs' := cs.map (fun c => { c with project_id := wl.gitlab_project_id })
      match gl.get_merge_requests wl.gitlab_project_id with
      | .error _ => watchLoop gl (acc_c ++ cs') acc_m wls
      | .ok ms =>
        let ms' := ms.map (fun m => { m with project_id := wl.gitlab_project_id })
        watchLoop gl (acc_c ++ cs') (acc_m ++ ms') wls

/-- Sequencing of `asyncio.gather`: the first failing task aborts the whole
gather (the raised exception, in list order here). -/
def seqExcept : List (Except String α) → Except String (List α)
  | [] => .ok []
  | .error e :: _ => .error e
  | .ok a :: rest =>
    match seqExcept rest with
    | .error e => .error e
    | .ok as => .ok (a :: as)

/-- The per-instance loop (lines 452-520): watchlist fetches, the diff
extension gather (never raises), the MR notes gather - whose count tasks CAN
raise and then abort the fetch -, snippet attachment to the first ten MRs,
and metrics computation. -/
def instanceLoop (acc : List CommitRec × List MrRec × List MetricsInst) :
    List InstanceRec →
    Except String (List CommitRec × List MrRec × List MetricsInst)
  | [] => .ok acc
  | inst :: rest =>
    let lists := watchLoop inst.gl [] [] inst.watchlists
    let instance_commits := lists.1
    let instance_mrs := lists.2
    let commit_extensions := (instance_commits.take 50).map
      (fun c => get_commit_diff_extensions inst.gl c.project_id c.id)
    match seqExcept (instance_mrs.map
        (fun mr => get_mr_notes_count inst.gl mr.project_id mr.iid)) with
    | .error e => .error e
    | .ok counts =>
      let snippets := (instance_mrs.take 10).map
        (fun mr => get_mr_notes_snippet inst.gl mr.project_id mr.iid 5)
      let mrs' := instance_mrs.enum.map (fun p =>
        if p.1 < 10 then { p.2 with notes_summary := some (snippets.getD p.1 "") }
        else p.2)
      let mi := { inst.compute_metrics instance_commits commit_extensions
                    mrs' counts with name := inst.instance_name }
      instanceLoop
        (acc.1 ++ instance_commits, acc.2.1 ++ mrs', acc.2.2 ++ [mi]) rest

structure FetchResult where
  issues : List IssueRec
  time_entries : List TimeEntryRec
  gitlab_commits : List CommitRec
  gitlab_mrs : List MrRec
  gitlab_metrics : List MetricsInst
  gitlab_project_map : List (Int × String)

structure FetchInputs where
  project_ids : List Int
  user_ids : List Int
  start_date : String
  end_date : String
  instances : List InstanceRec

/-- Full embedding of `_fetch_logs_node`.  The project-name map is built from
every watchlist row regardless of fetch success (line 465, before the try);
time entries are queried per target project (`projects_set` iteration order
taken as the configured list order). -/
def fetch_logs (o : RedmineOracle) (imgRefs : String → List String)
    (inp : FetchInputs) : Except String FetchResult :=
  let start_date := inp.start_date
  let end_date := if inp.end_date = "" then start_date else inp.end_date
  let issues := (clientFilteredIssues o inp.project_ids end_date).map
    (refineIssue imgRefs inp.user_ids start_date end_date)
  let time_entries :=
    (inp.project_ids.map (fun pid => search_time_entries_client o pid)).flatten
  let pmap := ((inp.instances.map (fun inst => inst.watchlists)).flatten).foldl
    (fun m wl => dictSetInt m wl.gitlab_project_id wl.project_name) []
  match instanceLoop ([], [], []) inp.instances with
  | .error e => .error e
  | .ok r =>
    .ok { issues := issues, time_entries := time_entries,
          gitlab_commits := r.1, gitlab_mrs := r.2.1,
          gitlab_metrics := r.2.2, gitlab_project_map := pmap }

/-! ## Entry point (`generate_summary`, lines 138-219) -/

structure SummarySettings where
  target_project_ids : List Int
  target_user_ids : List Int
deriving Repr, DecidableEq

/-- The persisted report row.  `gitlab_metrics` is stored JSON-serialized in
the original; the serialization is abstracted and the structured value kept
(`none` models the column default of the error report, which sets no
metrics). -/
structure ReportRec where
  title : String
  date_range_start : Option String
  date_range_end : Option String
  summary_markdown : String
  gitlab_metrics : Option (List MetricsInst)
  conversation_history : String
deriving Repr, DecidableEq

/-- The configuration-error report of lines 146-151:
`AIWorkSummaryReport(title="Error", summary_markdown="請先設定關注的專案與人員")`,
all other columns left at their model defaults. -/
def error_report : ReportRec :=
  { title := "Error", date_range_start := none, date_range_end := none,
    summary_markdown := "請先設定關注的專案與人員", gitlab_metrics := none,
    conversation_history := "[]" }

/-- Title extraction of lines 187-198: first stripped line starting with
`#`, hashes stripped, else the fallback title. -/
def extractTitle (md start_date end_date : String) : String :=
  let t :=
    match (splitNl md).find? (fun l => pyStartsWith (pyStrip l) "#") with
    | some l => pyStrip ⟨(pyStrip l).data.dropWhile (· = '#')⟩
    | none => ""
  if t = "" then "工作總結 " ++ start_date ++ " ~ " ++ end_date else t

/-- Full embedding of `generate_summary`: the configuration guard, the
two-node workflow (fetch then analyze; a workflow exception is re-raised,
lines 182-185), title extraction and the persisted report row. -/
def generate_summary (o : RedmineOracle) (A : AnalyzeOracles)
    (imgRefs : String → List String) (s : SummarySettings)
    (instances : List InstanceRec) (rb start_date end_date lang : String) :
    Except String ReportRec :=
  if s.target_project_ids.isEmpty || s.target_user_ids.isEmpty then
    .ok error_report
  else
    match fetch_logs o imgRefs
        ⟨s.target_project_ids, s.target_user_ids, start_date, end_date,
         instances⟩ with
    | .error e => .error e
    | .ok fr =>
      let md := analyze_logs A rb lang start_date end_date fr.issues
        fr.time_entries fr.gitlab_commits fr.gitlab_mrs
        fr.gitlab_project_map fr.gitlab_metrics
      .ok { title := extractTitle md start_date end_date,
            date_range_start := some start_date,
            date_range_end := some end_date,
            summary_markdown := md,
            gitlab_metrics := some fr.gitlab_metrics,
            conversation_history := "[]" }

/-! ## Concurrency model for the map phase

`_analyze_logs_node` wraps every per-user chunk coroutine in
`restricted_analyze_chunk` (`async with semaphore`, lines 872-874) - those
tasks are `gated` - while each `generate_project_summary_task` coroutine is
scheduled bare (line 925) - ungated.  A run is a trace of task start/finish
events; a gated task may start only while fewer than `cap` gated tasks are
in flight (semaphore acquire), an ungated task may always start.  `Modelled
from the spec:` the `AppSettings.max_concurrent_chunks` column itself (its
ORM model class is absent from this snapshot; the admin router and the
service reference it) defaults to 5, matching the service-side fallback
`app_settings.max_concurrent_chunks if app_settings else 5`. -/

structure AppSettingsRec where
  max_concurrent_chunks : Nat := 5
deriving Repr, DecidableEq

def concurrency_limit (app_settings : Option AppSettingsRec) : Nat :=
  match app_settings with
  | some s => s.max_concurrent_chunks
  | none => 5

structure SchedTask where
  project : String
  sortKey : String
  gated : Bool
deriving Repr, DecidableEq

/-- The task list of one run, in `ordered_chunks` order: per project the
ungated project-summary task, then one gated chunk task per user. -/
def scheduledTasks (events : List GroupEvent) : List SchedTask :=
  (projOrder events).flatMap (fun p =>
    ⟨p, "00_SUMMARY", false⟩ ::
      (userOrder events p).map (fun u => ⟨p, u, true⟩))

inductive SchedEv
  | start (i : Nat)
  | finish (i : Nat)
deriving Repr, DecidableEq

structure SchedState where
  active : List Nat
  done : List Nat
deriving Repr, DecidableEq

def SchedState.init : SchedState := ⟨[], []⟩

def taskGated (tasks : List SchedTask) (i : Nat) : Bool :=
  ((tasks.get? i).map (fun t => t.gated)).getD false

/-- Number of gated tasks currently in flight. -/
def gatedCount (tasks : List SchedTask) (st : SchedState) : Nat :=
  (st.active.filter (taskGated tasks)).length

/-- One scheduler step: starting a task requires it to be fresh and - when
gated - a free semaphore slot; finishing requires it to be in flight. -/
def schedStep (cap : Nat) (tasks : List SchedTask) (st : SchedState) :
    SchedEv → Option SchedState
  | .start i =>
    if i < tasks.length ∧ st.active.contains i = false ∧
        st.done.contains i = false ∧
        (taskGated tasks i = true → gatedCount tasks st < cap) then
      some ⟨st.active ++ [i], st.done⟩
    else none
  | .finish i =>
    if st.active.contains i = true then
      some ⟨st.active.erase i, st.done ++ [i]⟩
    else none

def runSched (cap : Nat) (tasks : List SchedTask) :
    SchedState → List SchedEv → Option SchedState
  | st, [] => some st
  | st, e :: es =>
    match schedStep cap tasks st e with
    | none => none
    | some st2 => runSched cap tasks st2 es

/-! ## Proof-support definitions -/

/-- Well-formedness of the placeholder registry: the keys are exactly
`IMG_PLACEHOLDER_0 .. IMG_PLACEHOLDER_(counter-1)` in insertion order and no
two keys map to the same url. -/
def PhWf (st : PhState) : Prop :=
  st.map.map (fun kv => kv.1) = (List.range st.counter).map mkImgKey ∧
  (st.map.map (fun kv => kv.2)).Nodup

/-- Registry state after any sequence of placeholder requests of one run. -/
def runPlaceholders (urls : List String) : PhState :=
  (getPlaceholders PhState.empty urls).2

/-- Index of the first occurrence of `pat`. -/
def firstOccL (pat : List Char) : List Char → Option Nat
  | [] => if pat.isPrefixOf ([] : List Char) then some 0 else none
  | c :: s =>
    if pat.isPrefixOf (c :: s) then some 0
    else (firstOccL pat s).map (· + 1)

/-- True when `p1` first occurs strictly before `p2` in `s`. -/
def firstBefore (p1 p2 s : String) : Bool :=
  match firstOccL p1.data s.data, firstOccL p2.data s.data with
  | some a, some b => decide (a < b)
  | _, _ => false

/-! ### Concrete run fixtures used by counterexamples and failing-input
evaluations -/

/-- A run whose only record is a time entry by a user literally named "!"
(user names are arbitrary Redmine data); "!" sorts before the sentinel
"00_SUMMARY". -/
def c6A : AnalyzeOracles := ⟨fun _ => .error "E", fun _ => none, fun _ => ""⟩

def c6Te : TimeEntryRec := ⟨"2024-01-01", "1.0", "!", "1", "w", "P"⟩

def c6Md : String :=
  analyze_logs c6A "" "en" "2024-01-01" "2024-01-02" [] [c6Te] [] [] [] []

/-- A run with an ordinary user name (sorting after the sentinel), used to
witness the amended ordering theorem. -/
def c6bEvents : List GroupEvent :=
  (group_events "" "2024-01-01" "2024-01-02" []
    [⟨"2024-01-01", "1.0", "Alice", "1", "w", "P"⟩] [] [] []).1

/-- Six time entries: project "A" with five users, project "B" with one. -/
def c7Tes : List TimeEntryRec :=
  [⟨"d", "1", "u1", "1", "c", "A"⟩, ⟨"d", "1", "u2", "1", "c", "A"⟩,
   ⟨"d", "1", "u3", "1", "c", "A"⟩, ⟨"d", "1", "u4", "1", "c", "A"⟩,
   ⟨"d", "1", "u5", "1", "c", "A"⟩, ⟨"d", "1", "v", "1", "c", "B"⟩]

def c7Events : List GroupEvent := (group_events "" "s" "e" [] c7Tes [] [] []).1

def c7Tasks : List SchedTask := scheduledTasks c7Events

/-- Start the five gated chunk tasks of project "A" (filling the semaphore),
then both ungated project-summary tasks: seven calls in flight. -/
def c7Trace : List SchedEv :=
  [.start 1, .start 2, .start 3, .start 4, .start 5, .start 0, .start 6]

def c4Metrics : MetricsInst := ⟨"g", 0, 0, 0, [], "0.0", 0, 0, 0⟩

def c4Mr : MrRec := ⟨3, 7, none, "2024-01-01", "opened", "t", none, none⟩

/-- A GitLab instance whose MR listing succeeds but whose notes endpoint
raises; every detail helper other than `get_mr_notes_count` would swallow
this. -/
def c4Gl : GitLabOracle :=
  ⟨fun _ => .ok [], fun _ => .ok [c4Mr], fun _ _ => .ok [],
   fun _ _ => .error "boom"⟩

def c4Inst : InstanceRec := ⟨"G", [⟨7, "Proj"⟩], c4Gl, fun _ _ _ _ => c4Metrics⟩

def c4Redmine : RedmineOracle := ⟨.ok [], fun _ => .ok [], fun _ => .ok []⟩

def c4A : AnalyzeOracles := ⟨fun _ => .ok "OK", fun _ => none, fun _ => ""⟩

/-- The same instance with a healthy notes endpoint (used to witness the
amended C4). -/
def c4InstOk : InstanceRec :=
  ⟨"G", [⟨7, "Proj"⟩],
   ⟨fun _ => .ok [], fun _ => .ok [c4Mr], fun _ _ => .ok [],
    fun _ _ => .ok []⟩,
   fun _ _ _ _ => c4Metrics⟩

/-- An LLM oracle that raises exactly on the chunk prompts of user "Alice"
(their prompt body contains "User: Alice") and answers "OKRESULT"
elsewhere. -/
def c8Llm : List (String × String) → Except String String :=
  fun msgs =>
    if msgs.any (fun m => pyContains "User: Alice" m.2) then .error "boom"
    else .ok "OKRESULT"

def c8A : AnalyzeOracles := ⟨c8Llm, fun _ => none, fun _ => ""⟩

def c8Redmine : RedmineOracle :=
  ⟨.ok [], fun _ => .ok [],
   fun _ => .ok [⟨"2024-01-01", "2.0", "Alice", "1", "work", "ProjectX"⟩,
                 ⟨"2024-01-01", "1.0", "Bob", "1", "work", "ProjectX"⟩]⟩

def c8Md : String :=
  match generate_summary c8Redmine c8A (fun _ => []) ⟨[1], [1]⟩ [] ""
      "2024-01-01" "2024-01-02" "en" with
  | .ok r => r.summary_markdown
  | .error _ => ""

/-- An issue with eleven distinct embedded images, no journals, assignee
"Unknown" and author "Dave", updated inside the window: placeholders
`IMG_PLACEHOLDER_0 .. IMG_PLACEHOLDER_10` are allocated for one chunk. -/
def c1Issue : IssueRec :=
  ⟨9, 1, "P", "S", "Open", "2024-01-01", "", "2024-01-02", [], "", [],
   ["picA.png", "picB.png", "picC.png", "picD.png", "picE.png", "picF.png",
    "picG.png", "picH.png", "picI.png", "picJ.png", "picK.png"],
   "Dave", "Unknown"⟩

def c1A : AnalyzeOracles := ⟨fun _ => .ok "OK", fun _ => none, fun _ => ""⟩

/-- The persisted markdown of that run (every download fails, so the claim
expects every placeholder to be replaced by its own original url). -/
def c1Md : String :=
  analyze_logs c1A "" "en" "2024-01-01" "2024-01-03" [c1Issue] [] [] [] [] []

/-! ### Order lemmas for the code-point lexicographic order -/

theorem charToNat_inj {a b : Char} (h : a.toNat = b.toNat) : a = b :=
  Char.ext (UInt32.toNat.inj h)

theorem stringData_inj {a b : String} (h : a.data = b.data) : a = b := by
  cases a
  cases b
  simp only at h
  rw [h]

theorem lexLt_irrefl (a : List Char) : lexLt a a = false := by
  induction a with
  | nil => rfl
  | cons c cs ih => simp [lexLt, ih]

theorem lexLt_trans {a b c : List Char} (hab : lexLt a b = true)
    (hbc : lexLt b c = true) : lexLt a c = true := by
  induction a generalizing b c with
  | nil =>
    cases b with
    | nil => simp [lexLt] at hab
    | cons y ys =>
      cases c with
      | nil => simp [lexLt] at hbc
      | cons z zs => rfl
  | cons x xs ih =>
    cases b with
    | nil => simp [lexLt] at hab
    | cons y ys =>
      cases c with
      | nil => simp [lexLt] at hbc
      | cons z zs =>
        simp only [lexLt, Bool.or_eq_true, Bool.and_eq_true,
          decide_eq_true_eq] at hab hbc ⊢
        rcases hab with h1 | ⟨h1, h1r⟩ <;> rcases hbc with h2 | ⟨h2, h2r⟩
        · exact Or.inl (Nat.lt_trans h1 h2)
        · exact Or.inl (h2 ▸ h1)
        · exact Or.inl (h1 ▸ h2)
        · exact Or.inr ⟨h1.trans h2, ih h1r h2r⟩

theorem lexLt_trichot (a b : List Char) :
    lexLt a b = true ∨ lexLt b a = true ∨ a = b := by
  induction a generalizing b with
  | nil =>
    cases b with
    | nil => right; right; rfl
    | cons y ys => left; rfl
  | cons x xs ih =>
    cases b with
    | nil => right; left; rfl
    | cons y ys =>
      rcases Nat.lt_trichotomy x.toNat y.toNat with h | h | h
      · left
        simp [lexLt, h]
      · rcases ih ys with h1 | h1 | h1
        · left
          simp [lexLt, h, h1]
        · right; left
          simp [lexLt, h.symm, h1]
        · right; right
          rw [charToNat_inj h, h1]
      · right; left
        simp [lexLt, h]

theorem lexLt_asymm {a b : List Char} (h : lexLt a b = true) :
    lexLt b a = false := by
  by_contra hc
  have hba : lexLt b a = true := by
    cases hx : lexLt b a
    · exact absurd hx hc
    · rfl
  have : lexLt a a = true := lexLt_trans h hba
  rw [lexLt_irrefl] at this
  exact Bool.false_ne_true this

theorem strLt_irrefl (a : String) : strLt a a = false := lexLt_irrefl a.data

theorem strLt_trans {a b c : String} (hab : strLt a b = true)
    (hbc : strLt b c = true) : strLt a c = true := lexLt_trans hab hbc

theorem strLt_asymm {a b : String} (h : strLt a b = true) :
    strLt b a = false := lexLt_asymm h

theorem strLt_trichot (a b : String) :
    strLt a b = true ∨ strLt b a = true ∨ a = b := by
  rcases lexLt_trichot a.data b.data with h | h | h
  · exact Or.inl h
  · exact Or.inr (Or.inl h)
  · exact Or.inr (Or.inr (stringData_inj h))

theorem strLe_total (a b : String) : strLe a b = true ∨ strLe b a = true := by
  rcases strLt_trichot a b with h | h | h
  · left
    simp [strLe, h]
  · right
    simp [strLe, h]
  · left
    simp [strLe, h]

theorem strLe_trans {a b c : String} (hab : strLe a b = true)
    (hbc : strLe b c = true) : strLe a c = true := by
  simp only [strLe, Bool.or_eq_true, beq_iff_eq] at hab hbc ⊢
  rcases hab with h1 | h1 <;> rcases hbc with h2 | h2
  · exact Or.inl (strLt_trans h1 h2)
  · exact Or.inl (h2 ▸ h1)
  · exact Or.inl (h1 ▸ h2)
  · exact Or.inr (h1.trans h2)

theorem strLt_of_strLe_of_ne {a b : String} (h : strLe a b = true)
    (hne : a ≠ b) : strLt a b = true := by
  simp only [strLe, Bool.or_eq_true, beq_iff_eq] at h
  rcases h with h | h
  · exact h
  · exact absurd h hne

theorem strLe_antisymm {a b : String} (hab : strLe a b = true)
    (hba : strLe b a = true) : a = b := by
  by_contra hne
  have h1 := strLt_of_strLe_of_ne hab hne
  have h2 := strLt_of_strLe_of_ne hba (fun h => hne h.symm)
  have := strLt_asymm h1
  rw [h2] at this
  simp at this

/-! ### Injectivity of decimal rendering -/

theorem natDigitsAux_congr :
    ∀ {n f1 f2 : Nat}, n < f1 → n < f2 →
      natDigitsAux f1 n = natDigitsAux f2 n := by
  intro n
  induction n using Nat.strong_induction_on with
  | _ n ih =>
    intro f1 f2 h1 h2
    match f1, f2 with
    | g1 + 1, g2 + 1 =>
      simp only [natDigitsAux]
      by_cases h : n < 10
      · simp [h]
      · simp only [h, if_false]
        have hq : n / 10 < n := by omega
        have hg1 : n / 10 < g1 := by omega
        have hg2 : n / 10 < g2 := by omega
        rw [ih (n / 10) hq hg1 hg2]

theorem natDigits_eq (n : Nat) :
    natDigits n = if n < 10 then [Char.ofNat (48 + n)]
      else natDigits (n / 10) ++ [Char.ofNat (48 + n % 10)] := by
  show natDigitsAux (n + 1) n = _
  rw [natDigitsAux]
  by_cases h : n < 10
  · simp [h]
  · simp only [h, if_false]
    congr 1
    exact natDigitsAux_congr (by omega) (Nat.lt_succ_self _)

theorem natDigits_ne_nil (n : Nat) : natDigits n ≠ [] := by
  rw [natDigits_eq]
  by_cases h : n < 10
  · simp [h]
  · simp [h]

theorem natDigits_length_one {n : Nat} (h : n < 10) :
    natDigits n = [Char.ofNat (48 + n)] := by
  rw [natDigits_eq]
  simp [h]

theorem natDigits_length_ge_two {n : Nat} (h : ¬ n < 10) :
    2 ≤ (natDigits n).length := by
  rw [natDigits_eq]
  simp only [h, if_false, List.length_append, List.length_cons,
    List.length_nil]
  have := natDigits_ne_nil (n / 10)
  have hlen : 1 ≤ (natDigits (n / 10)).length := by
    cases hx : natDigits (n / 10) with
    | nil => exact absurd hx this
    | cons a l => simp
  omega

theorem charOfNat_digit_inj {a b : Nat} (ha : a < 10) (hb : b < 10)
    (h : Char.ofNat (48 + a) = Char.ofNat (48 + b)) : a = b := by
  have hva : (Char.ofNat (48 + a)).toNat = 48 + a := by
    interval_cases a <;> decide
  have hvb : (Char.ofNat (48 + b)).toNat = 48 + b := by
    interval_cases b <;> decide
  have : (48 : Nat) + a = 48 + b := by
    rw [← hva, ← hvb, h]
  omega

theorem natDigits_inj : ∀ {m n : Nat}, natDigits m = natDigits n → m = n := by
  intro m
  induction m using Nat.strong_induction_on with
  | _ m ih =>
    intro n h
    by_cases hm : m < 10 <;> by_cases hn : n < 10
    · rw [natDigits_length_one hm, natDigits_length_one hn] at h
      have hc : Char.ofNat (48 + m) = Char.ofNat (48 + n) := by injection h
      exact charOfNat_digit_inj hm hn hc
    · exfalso
      have h2 := natDigits_length_ge_two hn
      rw [← h, natDigits_length_one hm] at h2
      simp at h2
    · exfalso
      have h2 := natDigits_length_ge_two hm
      rw [h, natDigits_length_one hn] at h2
      simp at h2
    · have hm' : natDigits m = natDigits (m / 10) ++ [Char.ofNat (48 + m % 10)] := by
        rw [natDigits_eq]
        simp [hm]
      have hn' : natDigits n = natDigits (n / 10) ++ [Char.ofNat (48 + n % 10)] := by
        rw [natDigits_eq]
        simp [hn]
      rw [hm', hn'] at h
      have hlen : (natDigits (m / 10)).length = (natDigits (n / 10)).length := by
        have := congrArg List.length h
        simp only [List.length_append, List.length_cons, List.length_nil] at this
        omega
      obtain ⟨hq, hr⟩ := List.append_inj h hlen
      have hqEq : m / 10 = n / 10 := ih (m / 10) (by omega) hq
      have hc : Char.ofNat (48 + m % 10) = Char.ofNat (48 + n % 10) := by
        injection hr
      have hrEq : m % 10 = n % 10 :=
        charOfNat_digit_inj (Nat.mod_lt _ (by omega)) (Nat.mod_lt _ (by omega)) hc
      omega

theorem natStr_inj {m n : Nat} (h : natStr m = natStr n) : m = n := by
  apply natDigits_inj
  have := congrArg String.data h
  simpa [natStr] using this

/-! ### Placeholder registry lemmas (towards C10) -/

theorem mkImgKey_inj {m n : Nat} (h : mkImgKey m = mkImgKey n) : m = n := by
  unfold mkImgKey at h
  have hd := congrArg String.data h
  rw [String.data_append, String.data_append] at hd
  exact natStr_inj (stringData_inj (List.append_cancel_left hd))

theorem assoc_val_unique {m : List (String × String)}
    (hnd : (m.map (fun kv => kv.1)).Nodup) {a b c : String}
    (h1 : (a, b) ∈ m) (h2 : (a, c) ∈ m) : b = c := by
  induction m with
  | nil => cases h1
  | cons kv rest ih =>
    simp only [List.map_cons, List.nodup_cons] at hnd
    rcases List.mem_cons.mp h1 with e1 | m1 <;>
      rcases List.mem_cons.mp h2 with e2 | m2
    · rw [← e1] at e2
      injection e2 with _ h
      exact h.symm
    · exfalso
      apply hnd.1
      rw [← e1]
      exact List.mem_map_of_mem (fun kv => kv.1) m2
    · exfalso
      apply hnd.1
      rw [← e2]
      exact List.mem_map_of_mem (fun kv => kv.1) m1
    · exact ih hnd.2 m1 m2

theorem phWf_len {st : PhState} (h : PhWf st) :
    st.map.length = st.counter := by
  have := congrArg List.length h.1
  simpa using this

theorem phKey_shape {st : PhState} (h : PhWf st) {kv : String × String}
    (hm : kv ∈ st.map) : ∃ j, j < st.counter ∧ kv.1 = mkImgKey j := by
  have hx : kv.1 ∈ st.map.map (fun kv => kv.1) :=
    List.mem_map_of_mem (fun kv => kv.1) hm
  rw [h.1] at hx
  obtain ⟨j, hj, he⟩ := List.mem_map.mp hx
  exact ⟨j, List.mem_range.mp hj, he.symm⟩

theorem phKeys_nodup {st : PhState} (h : PhWf st) :
    (st.map.map (fun kv => kv.1)).Nodup := by
  rw [h.1]
  exact (List.nodup_range _).map (fun a b hab => mkImgKey_inj hab)

theorem phWf_get {st : PhState} (h : PhWf st) (url : String) :
    PhWf (get_img_placeholder st url).2 := by
  obtain ⟨hkeys, hvals⟩ := h
  unfold get_img_placeholder
  cases hf : st.map.find? (fun kv => kv.2 == url) with
  | some kv => exact ⟨hkeys, hvals⟩
  | none =>
    refine ⟨?_, ?_⟩
    · simp only [List.map_append, hkeys, List.range_succ, List.map_singleton]
    · rw [List.map_append, List.nodup_append]
      refine ⟨hvals, by simp, ?_⟩
      intro x hx hx2
      simp only [List.map_cons, List.map_nil, List.mem_singleton] at hx2
      subst hx2
      obtain ⟨kv, hkv, hkve⟩ := List.mem_map.mp hx
      have := List.find?_eq_none.mp hf kv hkv
      simp only [beq_iff_eq] at this
      exact this hkve

theorem phWf_getPlaceholders {st : PhState} (h : PhWf st)
    (us : List String) : PhWf (getPlaceholders st us).2 := by
  induction us generalizing st with
  | nil => simpa [getPlaceholders] using h
  | cons u us ih =>
    simp only [getPlaceholders]
    exact ih (phWf_get h u)

theorem phWf_empty : PhWf PhState.empty := by
  constructor <;> simp [PhState.empty]

theorem phWf_run (urls : List String) : PhWf (runPlaceholders urls) :=
  phWf_getPlaceholders phWf_empty urls

theorem get_img_placeholder_idem (st : PhState) (url : String) :
    get_img_placeholder (get_img_placeholder st url).2 url =
      get_img_placeholder st url := by
  unfold get_img_placeholder
  cases hf : st.map.find? (fun kv => kv.2 == url) with
  | some kv => simp [hf]
  | none =>
    simp only [hf]
    have hfind : (st.map ++ [(mkImgKey st.counter, url)]).find?
        (fun kv => kv.2 == url) = some (mkImgKey st.counter, url) := by
      rw [List.find?_append, hf]
      simp
    simp [hfind]

theorem get_img_placeholder_distinct {st : PhState} (h : PhWf st)
    {u1 u2 : String} (hne : u1 ≠ u2) :
    (get_img_placeholder st u1).1 ≠
      (get_img_placeholder (get_img_placeholder st u1).2 u2).1 := by
  cases hf1 : st.map.find? (fun kv => kv.2 == u1) with
  | some kv1 =>
    have hv1 : kv1.2 = u1 := by simpa using List.find?_some hf1
    have hm1 : kv1 ∈ st.map := List.mem_of_find?_eq_some hf1
    cases hf2 : st.map.find? (fun kv => kv.2 == u2) with
    | some kv2 =>
      have hv2 : kv2.2 = u2 := by simpa using List.find?_some hf2
      have hm2 : kv2 ∈ st.map := List.mem_of_find?_eq_some hf2
      simp only [get_img_placeholder, hf1, hf2]
      intro hk
      apply hne
      have h1 : (kv1.1, u1) ∈ st.map := by
        rw [← hv1]
        exact hm1
      have h2 : (kv1.1, u2) ∈ st.map := by
        rw [hk, ← hv2]
        exact hm2
      exact assoc_val_unique (phKeys_nodup h) h1 h2
    | none =>
      simp only [get_img_placeholder, hf1, hf2]
      obtain ⟨j, hj, hkey⟩ := phKey_shape h hm1
      rw [hkey]
      intro he
      have := mkImgKey_inj he
      omega
  | none =>
    have hn1 : ∀ kv ∈ st.map, ¬(kv.2 == u1) = true :=
      List.find?_eq_none.mp hf1
    have hsingle : ([(mkImgKey st.counter, u1)].find?
        (fun kv => kv.2 == u2)) = none := by
      simp [hne]
    cases hf2 : st.map.find? (fun kv => kv.2 == u2) with
    | some kv2 =>
      have hm2 : kv2 ∈ st.map := List.mem_of_find?_eq_some hf2
      obtain ⟨j, hj, hkey⟩ := phKey_shape h hm2
      have hfind : (st.map ++ [(mkImgKey st.counter, u1)]).find?
          (fun kv => kv.2 == u2) = some kv2 := by
        rw [List.find?_append, hf2]
        rfl
      simp only [get_img_placeholder, hf1, hfind]
      rw [hkey]
      intro he
      have := mkImgKey_inj he
      omega
    | none =>
      have hfind : (st.map ++ [(mkImgKey st.counter, u1)]).find?
          (fun kv => kv.2 == u2) = none := by
        rw [List.find?_append, hf2, hsingle]
        rfl
      simp only [get_img_placeholder, hf1, hfind]
      intro he
      have := mkImgKey_inj he
      omega

/-- C10: within one pipeline run the placeholder map is a stable bijection.
Requesting a placeholder twice for the same resolved url returns the same
`IMG_PLACEHOLDER_<n>` key and leaves the registry unchanged; sequentially
requesting two distinct urls yields distinct keys (from any well-formed
registry state, and every state of a run is well-formed); and in the
registry of any run each key maps to exactly one url: the keys are pairwise
distinct and so are the stored urls. -/
theorem placeholder_map_stable_bijection :
    (∀ (st : PhState) (url : String),
      get_img_placeholder (get_img_placeholder st url).2 url =
        get_img_placeholder st url) ∧
    (∀ (st : PhState) (u1 u2 : String), PhWf st → u1 ≠ u2 →
      (get_img_placeholder st u1).1 ≠
        (get_img_placeholder (get_img_placeholder st u1).2 u2).1) ∧
    (∀ urls : List String, PhWf (runPlaceholders urls) ∧
      ((runPlaceholders urls).map.map (fun kv => kv.1)).Nodup ∧
      ((runPlaceholders urls).map.map (fun kv => kv.2)).Nodup) := by
  refine ⟨get_img_placeholder_idem, ?_, ?_⟩
  · intro st u1 u2 h hne
    exact get_img_placeholder_distinct h hne
  · intro urls
    have h := phWf_run urls
    exact ⟨h, phKeys_nodup h, h.2⟩

/-- Witness for C10 at a concrete registry: after one run registering "a",
re-requesting "a" is stable and "b" gets a different key. -/
theorem placeholder_map_stable_bijection_witness :
    (get_img_placeholder (get_img_placeholder (runPlaceholders ["a"]) "a").2
        "a" = get_img_placeholder (runPlaceholders ["a"]) "a") ∧
    (get_img_placeholder (runPlaceholders ["a"]) "a").1 ≠
      (get_img_placeholder
        (get_img_placeholder (runPlaceholders ["a"]) "a").2 "b").1 :=
  ⟨placeholder_map_stable_bijection.1 (runPlaceholders ["a"]) "a",
   placeholder_map_stable_bijection.2.1 (runPlaceholders ["a"]) "a" "b"
     (placeholder_map_stable_bijection.2.2 ["a"]).1 (by decide)⟩

/-! ### Journal filter and grouping lemmas (C2, C3, C5) -/

theorem journal_passes_spec {users_set : List Int} {sd ed : String}
    {j : Journal} (h : journal_passes users_set sd ed j = true) :
    (∃ uid, j.user_id = some uid ∧ uid ∈ users_set ∧ uid ≠ 0) ∧
    strLe sd (dayPart j.created_on) = true ∧
    strLe (dayPart j.created_on) ed = true := by
  unfold journal_passes at h
  cases hu : j.user_id with
  | none =>
    rw [hu] at h
    simp at h
  | some uid =>
    rw [hu] at h
    simp only [Bool.and_eq_true, decide_eq_true_eq] at h
    refine ⟨⟨uid, rfl, ?_, h.1.1⟩, h.2.1, h.2.2⟩
    simpa using h.1.2

theorem journal_loop_shape (rb : String) (i : IssueRec) :
    ∀ (js : List Journal) (st : PhState) (d : ImgData),
      List.Forall₂ (fun (ev : GroupEvent) (j : Journal) =>
        ev.project = i.project_name ∧ ev.user = j.user ∧
          ev.source = SourceKind.redmine)
        (journal_loop rb i st d js).1 js := by
  intro js
  induction js with
  | nil =>
    intro st d
    simp [journal_loop]
  | cons j js ih =>
    intro st d
    simp only [journal_loop]
    exact List.Forall₂.cons ⟨rfl, rfl, rfl⟩ (ih _ _)

/-- C2: every journal-entry line a pipeline run appends to a bucket comes
from a journal admitted by the filter, whose truthy author user id belongs
to the configured target set and whose creation day lies in
[start_date, end_date]; and the grouping appends, per admitted journal,
exactly one line to exactly one bucket - the one keyed by the project name
of the issue and the author name of the journal (pointwise), so no
entry appears in more than one bucket. -/
theorem journal_bucket_membership :
    (∀ (users_set : List Int) (sd ed : String) (js : List Journal)
        (j : Journal), j ∈ filtered_journals users_set sd ed js →
      (∃ uid, j.user_id = some uid ∧ uid ∈ users_set ∧ uid ≠ 0) ∧
      strLe sd (dayPart j.created_on) = true ∧
      strLe (dayPart j.created_on) ed = true) ∧
    (∀ (rb : String) (i : IssueRec) (st : PhState) (d : ImgData),
      List.Forall₂ (fun (ev : GroupEvent) (j : Journal) =>
        ev.project = i.project_name ∧ ev.user = j.user ∧
          ev.source = SourceKind.redmine)
        (journal_loop rb i st d i.journals).1 i.journals) := by
  constructor
  · intro users_set sd ed js j hj
    exact journal_passes_spec (List.mem_filter.mp hj).2
  · intro rb i st d
    exact journal_loop_shape rb i i.journals st d

/-- Witness for C2: a concrete journal by target user 1 dated inside the
window passes the filter, and a one-journal issue yields exactly one bucket
line keyed to that author. -/
theorem journal_bucket_membership_witness :
    ((∃ uid, (⟨5, "n", "2024-01-02T10:00:00Z", "U", some 1⟩ : Journal).user_id
        = some uid ∧ uid ∈ [(1 : Int)] ∧ uid ≠ 0) ∧
      strLe "2024-01-01"
        (dayPart (⟨5, "n", "2024-01-02T10:00:00Z", "U", some 1⟩ :
          Journal).created_on) = true ∧
      strLe (dayPart (⟨5, "n", "2024-01-02T10:00:00Z", "U", some 1⟩ :
          Journal).created_on) "2024-01-03" = true) ∧
    List.Forall₂ (fun (ev : GroupEvent) (j : Journal) =>
        ev.project = c1Issue.project_name ∧ ev.user = j.user ∧
          ev.source = SourceKind.redmine)
      (journal_loop "" c1Issue PhState.empty [] c1Issue.journals).1
      c1Issue.journals :=
  ⟨journal_bucket_membership.1 [1] "2024-01-01" "2024-01-03"
      [⟨5, "n", "2024-01-02T10:00:00Z", "U", some 1⟩]
      ⟨5, "n", "2024-01-02T10:00:00Z", "U", some 1⟩ (by decide),
   journal_bucket_membership.2 "" c1Issue PhState.empty []⟩

theorem get_issue_journals_user_id (result : Except String (List RawJournal)) :
    ∀ j ∈ get_issue_journals result, j.user_id = none := by
  intro j hj
  cases result with
  | error e => simp [get_issue_journals] at hj
  | ok raw =>
    simp only [get_issue_journals, journals_from_raw] at hj
    obtain ⟨x, _, he⟩ := List.mem_filterMap.mp hj
    split at he
    · injection he with he2
      rw [← he2]
    · cases he

theorem processIssues_mem {rb sd ed : String} :
    ∀ (is : List IssueRec) (st : PhState) (d : ImgData) (ev : GroupEvent),
      ev ∈ (processIssues rb sd ed st d is).1 →
      ∃ i ∈ is, ∃ st2 d2, ev ∈ (process_issue rb sd ed st2 d2 i).1 := by
  intro is
  induction is with
  | nil =>
    intro st d ev h
    simp [processIssues] at h
  | cons i is ih =>
    intro st d ev h
    simp only [processIssues, List.mem_append] at h
    rcases h with h | h
    · exact ⟨i, List.mem_cons_self i is, st, d, h⟩
    · obtain ⟨i2, hi2, st2, d2, h2⟩ := ih _ _ _ h
      exact ⟨i2, List.mem_cons_of_mem _ hi2, st2, d2, h2⟩

theorem process_issue_no_journals {rb sd ed : String} {st : PhState}
    {d : ImgData} {i : IssueRec} (h : i.journals = []) :
    ∀ ev ∈ (process_issue rb sd ed st d i).1, ev = fallbackEvent rb i := by
  intro ev hm
  unfold process_issue at hm
  rw [h] at hm
  simp only [journal_loop] at hm
  split at hm
  · simpa using hm
  · simp at hm

/-- C3: the dicts returned by `RedmineService.get_issue_journals` carry only
the keys id/notes/created_on/user - `user_id` is always absent (`none`) -
while the pipeline filter admits a journal only on a truthy `user_id`;
consequently the filter output over any client result is empty, no journal
entry is ever admitted into any bucket, and every redmine-sourced bucket
line of a run over such issues is either a synthetic
"(Issue Updated)" fallback line or a time-entry line. -/
theorem no_journal_ever_admitted :
    (∀ result, ∀ j ∈ get_issue_journals result, j.user_id = none) ∧
    (∀ (users_set : List Int) (sd ed : String) result,
      filtered_journals users_set sd ed (get_issue_journals result) = []) ∧
    (∀ (rb sd ed : String) (issues : List IssueRec) (tes : List TimeEntryRec)
        (commits : List CommitRec) (mrs : List MrRec)
        (pmap : List (Int × String)),
      (∀ i ∈ issues, i.journals = []) →
      ∀ ev ∈ (group_events rb sd ed issues tes commits mrs pmap).1,
        ev.source = SourceKind.redmine →
        (∃ i ∈ issues, ev = fallbackEvent rb i) ∨
        (∃ te ∈ tes, ev = timeEntryEvent te)) := by
  refine ⟨get_issue_journals_user_id, ?_, ?_⟩
  · intro users_set sd ed result
    apply List.filter_eq_nil_iff.mpr
    intro j hj
    have hu := get_issue_journals_user_id result j hj
    unfold journal_passes
    rw [hu]
    simp
  · intro rb sd ed issues tes commits mrs pmap hnoj ev hev hsrc
    simp only [group_events, List.mem_append] at hev
    rcases hev with ((h | h) | h) | h
    · obtain ⟨i, hi, st2, d2, h2⟩ := processIssues_mem issues _ _ ev h
      exact Or.inl ⟨i, hi, process_issue_no_journals (hnoj i hi) ev h2⟩
    · obtain ⟨te, hte, he⟩ := List.mem_map.mp h
      exact Or.inr ⟨te, hte, he.symm⟩
    · obtain ⟨c, _, he⟩ := List.mem_map.mp h
      rw [← he] at hsrc
      simp [commitEvent] at hsrc
    · obtain ⟨mr, _, he⟩ := List.mem_map.mp h
      rw [← he] at hsrc
      simp [mrEvent] at hsrc

/-- Witness for C3 on a concrete client result carrying a journal with a
non-blank note: the simplified dict drops `user_id`, the filter admits
nothing, and a one-issue-one-time-entry run only has fallback and time-entry
redmine lines. -/
theorem no_journal_ever_admitted_witness :
    (∀ j ∈ get_issue_journals
        (.ok [⟨5, some "note", "2024-01-02T10:00:00Z", some "U", some 1⟩]),
      j.user_id = none) ∧
    filtered_journals [1] "2024-01-01" "2024-01-03"
      (get_issue_journals
        (.ok [⟨5, some "note", "2024-01-02T10:00:00Z", some "U", some 1⟩]))
      = [] ∧
    (∀ ev ∈ (group_events "" "2024-01-01" "2024-01-03" [c1Issue] [c6Te] [] []
        []).1, ev.source = SourceKind.redmine →
      (∃ i ∈ [c1Issue], ev = fallbackEvent "" i) ∨
      (∃ te ∈ [c6Te], ev = timeEntryEvent te)) :=
  ⟨no_journal_ever_admitted.1 _,
   no_journal_ever_admitted.2.1 [1] "2024-01-01" "2024-01-03" _,
   no_journal_ever_admitted.2.2 "" "2024-01-01" "2024-01-03" [c1Issue] [c6Te]
     [] [] [] (by decide)⟩

theorem strLe_empty_right {s : String} (h : strLe s "" = true) : s = "" := by
  simp only [strLe, Bool.or_eq_true, beq_iff_eq] at h
  rcases h with h | h
  · cases hd : s.data with
    | nil => exact stringData_inj (by simp [hd])
    | cons c cs =>
      unfold strLt at h
      rw [hd] at h
      simp [lexLt] at h
  · exact h

/-- C5: for an issue whose filtered journal list is empty, the grouping
appends exactly one synthetic "(Issue Updated)" line, to the bucket keyed by
the project name and the fallback user - assignee unless it is the sentinel
"Unknown", else author unless "Unknown", else the literal "Unknown" - when
the `updated_on` day lies in the window, and no line at all when it lies
outside. -/
theorem fallback_attribution :
    ∀ (rb sd ed : String) (st : PhState) (d : ImgData) (i : IssueRec),
      i.journals = [] → sd ≠ "" →
      (fallback_user i =
        (if i.assigned_to_name ≠ "Unknown" then i.assigned_to_name
         else if i.author_name ≠ "Unknown" then i.author_name
         else "Unknown")) ∧
      ((strLe sd (dayPart i.updated_on) = true ∧
          strLe (dayPart i.updated_on) ed = true) →
        (process_issue rb sd ed st d i).1 = [fallbackEvent rb i]) ∧
      (¬(strLe sd (dayPart i.updated_on) = true ∧
          strLe (dayPart i.updated_on) ed = true) →
        (process_issue rb sd ed st d i).1 = []) := by
  intro rb sd ed st d i hj hsd
  refine ⟨?_, ?_, ?_⟩
  · unfold fallback_user
    by_cases ha : i.assigned_to_name = "Unknown"
    · simp only [ha, if_pos rfl, ne_eq, not_true_eq_false, if_false]
      by_cases hb : i.author_name = "Unknown"
      · simp [hb]
      · simp [hb]
    · simp [ha]
  · intro hwin
    have hday : dayPart i.updated_on ≠ "" := by
      intro h0
      rw [h0] at hwin
      exact hsd (strLe_empty_right hwin.1)
    unfold process_issue
    rw [hj]
    simp only [journal_loop, List.isEmpty_nil, hday, hwin.1, hwin.2]
    simp [hday]
  · intro hwin
    unfold process_issue
    rw [hj]
    simp only [journal_loop, List.isEmpty_nil]
    have : ¬(strLe sd (dayPart i.updated_on) = true ∧
        strLe (dayPart i.updated_on) ed = true) := hwin
    by_cases h1 : strLe sd (dayPart i.updated_on) = true
    · have h2 : strLe (dayPart i.updated_on) ed = false := by
        rcases Bool.eq_false_or_eq_true (strLe (dayPart i.updated_on) ed)
          with hx | hx
        · exact absurd ⟨h1, hx⟩ this
        · exact hx
      simp [h1, h2]
    · have h1' : strLe sd (dayPart i.updated_on) = false :=
        Bool.eq_false_iff.mpr h1
      simp [h1']

/-- Witness for C5 on the three attribution fixtures (assignee known;
assignee unknown with author known; both unknown) plus an out-of-window
issue. -/
theorem fallback_attribution_witness :
    ((process_issue "" "2024-01-01" "2024-01-03" PhState.empty []
        ⟨1, 1, "P", "S", "o", "", "", "2024-01-02", [], "", [], [], "Ann",
         "Bea"⟩).1 =
      [fallbackEvent ""
        ⟨1, 1, "P", "S", "o", "", "", "2024-01-02", [], "", [], [], "Ann",
         "Bea"⟩]) ∧
    (fallback_user
        ⟨1, 1, "P", "S", "o", "", "", "2024-01-02", [], "", [], [], "Dave",
         "Unknown"⟩ = "Dave") ∧
    (fallback_user
        ⟨1, 1, "P", "S", "o", "", "", "2024-01-02", [], "", [], [],
         "Unknown", "Unknown"⟩ = "Unknown") ∧
    ((process_issue "" "2024-01-01" "2024-01-03" PhState.empty []
        ⟨1, 1, "P", "S", "o", "", "", "2024-02-09", [], "", [], [], "Ann",
         "Bea"⟩).1 = []) := by
  refine ⟨?_, ?_, ?_, ?_⟩
  · exact (fallback_attribution "" "2024-01-01" "2024-01-03" PhState.empty []
      _ rfl (by decide)).2.1 ⟨by decide, by decide⟩
  · have h := (fallback_attribution "" "2024-01-01" "2024-01-03"
      PhState.empty []
      ⟨1, 1, "P", "S", "o", "", "", "2024-01-02", [], "", [], [], "Dave",
       "Unknown"⟩ rfl (by decide)).1
    rw [h]
    decide
  · have h := (fallback_attribution "" "2024-01-01" "2024-01-03"
      PhState.empty []
      ⟨1, 1, "P", "S", "o", "", "", "2024-01-02", [], "", [], [],
       "Unknown", "Unknown"⟩ rfl (by decide)).1
    rw [h]
    decide
  · exact (fallback_attribution "" "2024-01-01" "2024-01-03" PhState.empty []
      _ rfl (by decide)).2.2 (by decide)

/-- C9: with an empty target project set or an empty target user set,
`generate_summary` returns - for every oracle environment, hence without
attempting any issue-tracker, source-control or LLM call - the user-facing
error report (title "Error", body 請先設定關注的專案與人員) instead of
raising. -/
theorem config_error_report :
    ∀ (o : RedmineOracle) (A : AnalyzeOracles)
      (imgRefs : String → List String) (s : SummarySettings)
      (instances : List InstanceRec) (rb sd ed lang : String),
      s.target_project_ids = [] ∨ s.target_user_ids = [] →
      generate_summary o A imgRefs s instances rb sd ed lang =
        .ok error_report ∧
      error_report.title = "Error" ∧
      error_report.summary_markdown = "請先設定關注的專案與人員" := by
  intro o A imgRefs s instances rb sd ed lang h
  refine ⟨?_, rfl, rfl⟩
  unfold generate_summary
  rcases h with h | h <;> simp [h]

/-- Witness for C9 at concrete oracles and an empty project set. -/
theorem config_error_report_witness :
    generate_summary c4Redmine c4A (fun _ => []) ⟨[], [3]⟩ [] "" "s" "e" "en"
      = .ok error_report :=
  (config_error_report c4Redmine c4A (fun _ => []) ⟨[], [3]⟩ [] "" "s" "e"
    "en" (Or.inl rfl)).1

/-! ### Scheduler lemmas (C7) -/

theorem gatedCount_step_le {cap : Nat} {tasks : List SchedTask}
    {st st2 : SchedState} {e : SchedEv}
    (hstep : schedStep cap tasks st e = some st2)
    (h : gatedCount tasks st ≤ cap) : gatedCount tasks st2 ≤ cap := by
  cases e with
  | start i =>
    simp only [schedStep] at hstep
    split at hstep
    · rename_i hc
      injection hstep with hst
      subst hst
      unfold gatedCount at h ⊢
      simp only [List.filter_append, List.length_append]
      cases hgi : taskGated tasks i
      · have hz : (List.filter (taskGated tasks) [i]).length = 0 := by
          simp [hgi]
        omega
      · have hone : (List.filter (taskGated tasks) [i]).length = 1 := by
          simp [hgi]
        have hlt : (st.active.filter (taskGated tasks)).length < cap := by
          have := hc.2.2.2 hgi
          simpa [gatedCount] using this
        omega
    · cases hstep
  | finish i =>
    simp only [schedStep] at hstep
    split at hstep
    · injection hstep with hst
      subst hst
      unfold gatedCount at h ⊢
      have hsub : ((st.active.erase i).filter (taskGated tasks)).Sublist
          (st.active.filter (taskGated tasks)) :=
        List.Sublist.filter _ (List.erase_sublist i st.active)
      exact le_trans hsub.length_le h
    · cases hstep

theorem runSched_bounded_aux {cap : Nat} {tasks : List SchedTask} :
    ∀ (evs : List SchedEv) (st st2 : SchedState),
      gatedCount tasks st ≤ cap →
      runSched cap tasks st evs = some st2 →
      gatedCount tasks st2 ≤ cap := by
  intro evs
  induction evs with
  | nil =>
    intro st st2 h hr
    injection hr with hr
    subst hr
    exact h
  | cons e es ih =>
    intro st st2 h hr
    unfold runSched at hr
    cases hstep : schedStep cap tasks st e with
    | none => rw [hstep] at hr; cases hr
    | some stm =>
      rw [hstep] at hr
      exact ih stm st2 (gatedCount_step_le hstep h) hr

theorem runSched_prefix {cap : Nat} {tasks : List SchedTask} :
    ∀ (l1 l2 : List SchedEv) (st st2 : SchedState),
      runSched cap tasks st (l1 ++ l2) = some st2 →
      ∃ stm, runSched cap tasks st l1 = some stm := by
  intro l1
  induction l1 with
  | nil => exact fun l2 st st2 _ => ⟨st, rfl⟩
  | cons e es ih =>
    intro l2 st st2 hr
    rw [List.cons_append] at hr
    unfold runSched at hr ⊢
    cases hstep : schedStep cap tasks st e with
    | none => rw [hstep] at hr; cases hr
    | some stm =>
      rw [hstep] at hr
      exact ih l2 stm st2 hr

theorem scheduledTasks_gating (events : List GroupEvent) :
    (∀ p ∈ projOrder events,
      (⟨p, "00_SUMMARY", false⟩ : SchedTask) ∈ scheduledTasks events) ∧
    (∀ t ∈ scheduledTasks events, t.gated = false →
      t.sortKey = "00_SUMMARY") := by
  constructor
  · intro p hp
    unfold scheduledTasks
    exact List.mem_flatMap.mpr ⟨p, hp, List.mem_cons_self _ _⟩
  · intro t ht hg
    unfold scheduledTasks at ht
    obtain ⟨p, _, hmem⟩ := List.mem_flatMap.mp ht
    rcases List.mem_cons.mp hmem with he | hu
    · rw [he]
    · obtain ⟨u, _, he⟩ := List.mem_map.mp hu
      rw [← he] at hg
      cases hg

/-- C7 (amended): only the per-user chunk tasks acquire the per-run counting
semaphore of capacity `max_concurrent_chunks` (default 5); along every valid
run every reachable point has at most capacity gated chunk-summarization
calls in flight.  The project-synthesizer tasks are scheduled WITHOUT the
semaphore (`gated = false`), so the total number of in-flight LLM calls can
exceed the capacity. -/
theorem chunk_semaphore_bound :
    ∀ (events : List GroupEvent) (app : Option AppSettingsRec)
      (evs : List SchedEv) (st2 : SchedState),
      runSched (concurrency_limit app) (scheduledTasks events)
        SchedState.init evs = some st2 →
      (∀ n : Nat, ∃ stm,
        runSched (concurrency_limit app) (scheduledTasks events)
          SchedState.init (evs.take n) = some stm ∧
        gatedCount (scheduledTasks events) stm ≤ concurrency_limit app) ∧
      ((∀ p ∈ projOrder events,
        (⟨p, "00_SUMMARY", false⟩ : SchedTask) ∈ scheduledTasks events) ∧
       (∀ t ∈ scheduledTasks events, t.gated = false →
        t.sortKey = "00_SUMMARY")) := by
  intro events app evs st2 hr
  constructor
  · intro n
    have hsplit : evs = evs.take n ++ evs.drop n := (List.take_append_drop n evs).symm
    rw [hsplit] at hr
    obtain ⟨stm, hstm⟩ := runSched_prefix (evs.take n) (evs.drop n) _ _ hr
    refine ⟨stm, hstm, ?_⟩
    exact runSched_bounded_aux (evs.take n) _ _ (by simp [gatedCount, SchedState.init]) hstm
  · exact scheduledTasks_gating events

/-- Witness for C7 (amended) on the concrete two-project run. -/
theorem chunk_semaphore_bound_witness :
    ∃ stm, runSched (concurrency_limit none) (scheduledTasks c7Events)
        SchedState.init (c7Trace.take 7) = some stm ∧
      gatedCount (scheduledTasks c7Events) stm ≤ concurrency_limit none :=
  (chunk_semaphore_bound c7Events none c7Trace ⟨[1, 2, 3, 4, 5, 0, 6], []⟩
    (by decide)).1 7

/-- Counterexample to C7 as stated: with the default capacity 5, the run
with projects "A" (five users) and "B" admits a valid schedule - each gated
start sees a free semaphore slot - in which seven LLM tasks are in flight
simultaneously, because both project-summary tasks are ungated: the project
synthesizer does NOT participate in the semaphore pool. -/
theorem chunk_semaphore_bound_cex :
    runSched (concurrency_limit none) c7Tasks SchedState.init c7Trace =
      some ⟨[1, 2, 3, 4, 5, 0, 6], []⟩ ∧
    concurrency_limit none = 5 ∧
    (SchedState.mk [1, 2, 3, 4, 5, 0, 6] []).active.length = 7 ∧
    taskGated c7Tasks 0 = false ∧ taskGated c7Tasks 6 = false ∧
    c7Tasks.get? 0 = some ⟨"A", "00_SUMMARY", false⟩ ∧
    c7Tasks.get? 6 = some ⟨"B", "00_SUMMARY", false⟩ := by
  decide

/-! ### Fetch totality lemmas (C4) -/

theorem seqExcept_ok {α : Type} :
    ∀ {l : List (Except String α)}, (∀ x ∈ l, ∃ v, x = .ok v) →
      ∃ vs, seqExcept l = .ok vs := by
  intro l
  induction l with
  | nil => exact fun _ => ⟨[], rfl⟩
  | cons x xs ih =>
    intro h
    obtain ⟨v, hv⟩ := h x (List.mem_cons_self x xs)
    obtain ⟨vs, hvs⟩ := ih (fun y hy => h y (List.mem_cons_of_mem x hy))
    subst hv
    exact ⟨v :: vs, by simp [seqExcept, hvs]⟩

theorem instanceLoop_ok :
    ∀ (insts : List InstanceRec)
      (acc : List CommitRec × List MrRec × List MetricsInst),
      (∀ inst ∈ insts, ∀ pid iid, ∃ n, inst.gl.notes_http pid iid = .ok n) →
      ∃ r, instanceLoop acc insts = .ok r := by
  intro insts
  induction insts with
  | nil => exact fun acc _ => ⟨acc, rfl⟩
  | cons inst rest ih =>
    intro acc h
    unfold instanceLoop
    simp only [instanceLoop]
    have hok : ∀ x ∈ (watchLoop inst.gl [] [] inst.watchlists).2.map
        (fun mr => get_mr_notes_count inst.gl mr.project_id mr.iid),
        ∃ v, x = .ok v := by
      intro x hx
      obtain ⟨mr, _, he⟩ := List.mem_map.mp hx
      obtain ⟨notes, hn⟩ :=
        h inst (List.mem_cons_self inst rest) mr.project_id mr.iid
      refine ⟨(notes.filter (fun n => n.system == some false)).length, ?_⟩
      rw [← he]
      unfold get_mr_notes_count
      rw [hn]
    obtain ⟨vs, hvs⟩ := seqExcept_ok hok
    rw [hvs]
    exact ih _ (fun i hi => h i (List.mem_cons_of_mem inst hi))

/-- C4 (amended): the fetch stage completes - and the run still produces a
persisted report - for EVERY failure pattern of the issue search, journal
fetches, time-entry queries, commit listings, merge-request listings,
per-commit diff fetches and per-MR note-snippet fetches, PROVIDED every
per-MR notes-count call succeeds; those (and only those) detail calls are
gathered without any surrounding try/except and abort the whole request on
failure. -/
theorem fetch_nonfatal_modulo_notes_count :
    ∀ (o : RedmineOracle) (A : AnalyzeOracles)
      (imgRefs : String → List String) (s : SummarySettings)
      (instances : List InstanceRec) (rb sd ed lang : String),
      (∀ inst ∈ instances, ∀ pid iid, ∃ n, inst.gl.notes_http pid iid = .ok n) →
      (∃ fr, fetch_logs o imgRefs
        ⟨s.target_project_ids, s.target_user_ids, sd, ed, instances⟩ =
          .ok fr) ∧
      (s.target_project_ids ≠ [] → s.target_user_ids ≠ [] →
        ∃ rep, generate_summary o A imgRefs s instances rb sd ed lang =
          .ok rep) := by
  intro o A imgRefs s instances rb sd ed lang h
  obtain ⟨r, hr⟩ := instanceLoop_ok instances ([], [], []) h
  have hfetch : ∃ fr, fetch_logs o imgRefs
      ⟨s.target_project_ids, s.target_user_ids, sd, ed, instances⟩ =
        .ok fr := by
    simp only [fetch_logs]
    rw [hr]
    exact ⟨_, rfl⟩
  refine ⟨hfetch, ?_⟩
  intro hp hu
  obtain ⟨fr, hfr⟩ := hfetch
  have hp2 : s.target_project_ids.isEmpty = false := by
    simpa [List.isEmpty_iff] using hp
  have hu2 : s.target_user_ids.isEmpty = false := by
    simpa [List.isEmpty_iff] using hu
  simp only [generate_summary, hp2, hu2, hfr]
  exact ⟨_, rfl⟩

/-- Witness for C4 (amended) on a concrete instance whose notes endpoint is
healthy while its commit listing is empty. -/
theorem fetch_nonfatal_modulo_notes_count_witness :
    (∃ fr, fetch_logs c4Redmine (fun _ => [])
      ⟨[1], [2], "2024-01-01", "2024-01-02", [c4InstOk]⟩ = .ok fr) ∧
    ((1 : Int) :: [] ≠ [] → (2 : Int) :: [] ≠ [] →
      ∃ rep, generate_summary c4Redmine c4A (fun _ => []) ⟨[1], [2]⟩
        [c4InstOk] "" "2024-01-01" "2024-01-02" "en" = .ok rep) :=
  fetch_nonfatal_modulo_notes_count c4Redmine c4A (fun _ => []) ⟨[1], [2]⟩
    [c4InstOk] "" "2024-01-01" "2024-01-02" "en"
    (by
      intro inst hinst pid iid
      simp only [List.mem_singleton] at hinst
      subst hinst
      exact ⟨[], rfl⟩)

/-- Counterexample to C4 as stated: one merge request whose notes-count
fetch raises makes the whole `generate_summary` call raise (the workflow
exception is re-raised), so a single per-MR detail failure IS fatal and no
report is produced. -/
theorem mr_notes_failure_fatal :
    generate_summary c4Redmine c4A (fun _ => []) ⟨[1], [2]⟩ [c4Inst] ""
      "2024-01-01" "2024-01-02" "en" = .error "boom" := by
  rfl

/-! ### Section ordering lemmas (C6) -/

theorem pairLe_total (x y : String × String) :
    pairLe x y = true ∨ pairLe y x = true := by
  rcases strLt_trichot x.1 y.1 with h | h | h
  · left
    simp [pairLe, h]
  · right
    simp [pairLe, h]
  · rcases strLe_total x.2 y.2 with h2 | h2
    · left
      simp [pairLe, h, h2]
    · right
      simp [pairLe, h.symm, h2]

theorem pairLe_trans {x y z : String × String} (h1 : pairLe x y = true)
    (h2 : pairLe y z = true) : pairLe x z = true := by
  simp only [pairLe, Bool.or_eq_true, Bool.and_eq_true, beq_iff_eq]
    at h1 h2 ⊢
  rcases h1 with ha | ⟨ha, ha2⟩ <;> rcases h2 with hb | ⟨hb, hb2⟩
  · exact Or.inl (strLt_trans ha hb)
  · exact Or.inl (hb ▸ ha)
  · exact Or.inl (ha ▸ hb)
  · exact Or.inr ⟨ha.trans hb, strLe_trans ha2 hb2⟩

theorem orderedChunkItems_mem {A : AnalyzeOracles} {events : List GroupEvent}
    {phMap : List (String × String)} {d : ImgData} {lang sd ed : String}
    {it : ChunkItem}
    (h : it ∈ orderedChunkItems A events phMap d lang sd ed) :
    it.project ∈ projOrder events ∧
    (it.sortKey = "00_SUMMARY" ∨ it.sortKey ∈ userOrder events it.project) := by
  unfold orderedChunkItems at h
  obtain ⟨p, hp, hmem⟩ := List.mem_flatMap.mp h
  rcases List.mem_cons.mp hmem with he | hu
  · rw [he]
    exact ⟨hp, Or.inl rfl⟩
  · obtain ⟨u, hu2, he⟩ := List.mem_map.mp hu
    rw [← he]
    exact ⟨hp, Or.inr hu2⟩

theorem strLe_not_with_strLt {a b : String} (h1 : strLe a b = true)
    (h2 : strLt b a = true) : False := by
  simp only [strLe, Bool.or_eq_true, beq_iff_eq] at h1
  rcases h1 with h1 | h1
  · rw [strLt_asymm h1] at h2
    cases h2
  · rw [h1, strLt_irrefl] at h2
    cases h2

/-- C6 (amended): the assembled report concatenates the produced sections in
the stable sort order of `(project_name, sort_key)`, the project synthesizer
carrying the sentinel "00_SUMMARY"; provided every user name of the run
sorts lexicographically after the sentinel (true e.g. for names starting
with a letter or a digit above 0), the summary section of each project precedes
every per-user chunk of that project, per-user chunks of one project appear
in lexical user-name order, and projects appear in lexical order - all of
this independent of task completion order (`asyncio.gather` keeps task
order, and the sort alone fixes the final order).  A user name sorting
before "00_SUMMARY" instead precedes the summary of its project. -/
theorem report_section_ordering :
    ∀ (A : AnalyzeOracles) (events : List GroupEvent)
      (phMap : List (String × String)) (d : ImgData) (lang sd ed : String),
      (∀ p ∈ projOrder events, ∀ u ∈ userOrder events p,
        strLt "00_SUMMARY" u = true) →
      ∀ (i j : Fin (sortChunkItems
          (orderedChunkItems A events phMap d lang sd ed)).length),
        (((sortChunkItems (orderedChunkItems A events phMap d lang sd
            ed)).get i).sortKey = "00_SUMMARY" →
         ((sortChunkItems (orderedChunkItems A events phMap d lang sd
            ed)).get j).project =
           ((sortChunkItems (orderedChunkItems A events phMap d lang sd
            ed)).get i).project →
         ((sortChunkItems (orderedChunkItems A events phMap d lang sd
            ed)).get j).sortKey ≠ "00_SUMMARY" → i < j) ∧
        (i < j →
         ((sortChunkItems (orderedChunkItems A events phMap d lang sd
            ed)).get i).project =
           ((sortChunkItems (orderedChunkItems A events phMap d lang sd
            ed)).get j).project →
         strLe ((sortChunkItems (orderedChunkItems A events phMap d lang sd
            ed)).get i).sortKey
           ((sortChunkItems (orderedChunkItems A events phMap d lang sd
            ed)).get j).sortKey = true) ∧
        (i < j →
         strLe ((sortChunkItems (orderedChunkItems A events phMap d lang sd
            ed)).get i).project
           ((sortChunkItems (orderedChunkItems A events phMap d lang sd
            ed)).get j).project = true) := by
  intro A events phMap d lang sd ed husers i j
  haveI : IsTrans ChunkItem chunkRel :=
    ⟨fun _ _ _ h1 h2 => pairLe_trans h1 h2⟩
  haveI : IsTotal ChunkItem chunkRel :=
    ⟨fun a b => pairLe_total (a.project, a.sortKey) (b.project, b.sortKey)⟩
  have hsorted : List.Sorted chunkRel
      (sortChunkItems (orderedChunkItems A events phMap d lang sd ed)) :=
    List.sorted_insertionSort chunkRel _
  have hpw := List.pairwise_iff_get.mp hsorted
  have hmem : ∀ it ∈ sortChunkItems
      (orderedChunkItems A events phMap d lang sd ed),
      it ∈ orderedChunkItems A events phMap d lang sd ed := by
    intro it hit
    exact (List.perm_insertionSort chunkRel _).mem_iff.mp hit
  refine ⟨?_, ?_, ?_⟩
  · intro hsumm hproj hne
    rcases Nat.lt_trichotomy i.val j.val with hlt | heq | hgt
    · exact hlt
    · exfalso
      have : i = j := Fin.ext heq
      rw [this] at hsumm
      exact hne hsumm
    · exfalso
      have hrel := hpw j i hgt
      unfold chunkRel at hrel
      simp only [pairLe, Bool.or_eq_true, Bool.and_eq_true, beq_iff_eq]
        at hrel
      rw [hproj, hsumm] at hrel
      rcases hrel with hrel | ⟨_, hrel⟩
      · rw [strLt_irrefl] at hrel
        cases hrel
      · have hj := orderedChunkItems_mem (hmem _
          (List.get_mem (sortChunkItems
            (orderedChunkItems A events phMap d lang sd ed)) j.1 j.2))
        rcases hj.2 with hj2 | hj2
        · exact hne hj2
        · exact strLe_not_with_strLt hrel (husers _ hj.1 _ hj2)
  · intro hij hproj
    have hrel := hpw i j hij
    unfold chunkRel at hrel
    simp only [pairLe, Bool.or_eq_true, Bool.and_eq_true, beq_iff_eq] at hrel
    rcases hrel with hrel | ⟨_, hrel⟩
    · rw [hproj, strLt_irrefl] at hrel
      cases hrel
    · exact hrel
  · intro hij
    have hrel := hpw i j hij
    unfold chunkRel at hrel
    simp only [pairLe, Bool.or_eq_true, Bool.and_eq_true, beq_iff_eq] at hrel
    rcases hrel with hrel | ⟨hrel, _⟩
    · simp only [strLe, Bool.or_eq_true, beq_iff_eq]
      exact Or.inl hrel
    · simp only [strLe, Bool.or_eq_true, beq_iff_eq]
      exact Or.inr hrel

set_option maxRecDepth 1000000 in
set_option maxHeartbeats 4000000 in
/-- Witness for C6 (amended) on a run with one project "P" and one user
"Alice": project order and per-project key order hold at indices 0 < 1. -/
theorem report_section_ordering_witness :
    strLe ((sortChunkItems (orderedChunkItems c6A c6bEvents [] [] "en"
        "2024-01-01" "2024-01-02")).get ⟨0, by decide⟩).project
      ((sortChunkItems (orderedChunkItems c6A c6bEvents [] [] "en"
        "2024-01-01" "2024-01-02")).get ⟨1, by decide⟩).project = true ∧
    strLe ((sortChunkItems (orderedChunkItems c6A c6bEvents [] [] "en"
        "2024-01-01" "2024-01-02")).get ⟨0, by decide⟩).sortKey
      ((sortChunkItems (orderedChunkItems c6A c6bEvents [] [] "en"
        "2024-01-01" "2024-01-02")).get ⟨1, by decide⟩).sortKey = true := by
  have h := report_section_ordering c6A c6bEvents [] [] "en" "2024-01-01"
    "2024-01-02" (by decide) ⟨0, by decide⟩ ⟨1, by decide⟩
  exact ⟨h.2.2 (by decide), h.2.1 (by decide) (by decide)⟩

set_option maxRecDepth 1000000 in
set_option maxHeartbeats 4000000 in
/-- Counterexample to C6 as stated: a bucket user literally named "!" sorts
before the sentinel "00_SUMMARY", so its chunk precedes the project summary
in the sorted sections and in the assembled report - the claimed
"its narrative summary appears before any per-user chunk of that project"
fails for such user names. -/
theorem report_section_ordering_cex :
    ((sortChunkItems (orderedChunkItems c6A
        (group_events "" "2024-01-01" "2024-01-02" [] [c6Te] [] [] []).1 []
        [] "en" "2024-01-01" "2024-01-02")).map
      (fun it => (it.project, it.sortKey)) =
      [("P", "!"), ("P", "00_SUMMARY")]) ∧
    firstBefore "### P - !" "### P - Summary" c6Md = true := by
  exact ⟨by decide, by decide⟩

set_option maxRecDepth 1000000 in
set_option maxHeartbeats 4000000 in
/-- C8 (amended): in the run whose LLM oracle raises exactly on the chunk
calls of bucket ("ProjectX", "Alice"), the pipeline still persists a report;
its markdown contains the "### ProjectX - Alice" section with the inline
error string "(Redmine AI Error: <exception>)" embedded at that chunk
position (the GitLab counterpart would read "(GitLab AI Error: ...)"), and
the sibling bucket ("ProjectX", "Bob") is present with its normal LLM
result. -/
theorem failing_chunk_degrades_inline :
    (∃ rep, generate_summary c8Redmine c8A (fun _ => []) ⟨[1], [1]⟩ [] ""
        "2024-01-01" "2024-01-02" "en" = .ok rep) ∧
    pyContains "### ProjectX - Alice" c8Md = true ∧
    pyContains "(Redmine AI Error: boom)" c8Md = true ∧
    pyContains "### ProjectX - Bob" c8Md = true ∧
    pyContains "OKRESULT" c8Md = true := by
  exact ⟨⟨_, rfl⟩, by decide, by decide, by decide, by decide⟩

set_option maxRecDepth 1000000 in
set_option maxHeartbeats 4000000 in
/-- Counterexample to C8 as stated: in that same failing run the persisted
markdown contains no "(AI Analysis Failed" string anywhere - the inline
error text of the code is "(Redmine AI Error: ...)" / "(GitLab AI Error:
...)", not the claimed "(AI Analysis Failed: ...)". -/
theorem failing_chunk_error_string_differs :
    pyContains "(AI Analysis Failed" c8Md = false ∧
    pyContains "### ProjectX - Alice" c8Md = true ∧
    pyContains "boom" c8Md = true := by
  exact ⟨by decide, by decide, by decide⟩

set_option maxRecDepth 1000000 in
set_option maxHeartbeats 4000000 in
/-- C1 (failing input): in the run over `c1Issue` - eleven distinct images,
all downloads failing, so the claim requires every placeholder to be
replaced by its own original url - the persisted markdown never contains
the eleventh url "picK.png": the restoration pass for `IMG_PLACEHOLDER_1`
textually rewrites the embedded prefix of `IMG_PLACEHOLDER_10`, leaving
"picB.png0" (the second url with a stray digit) where the eleventh image
was referenced.  The image reference is corrupted, although no literal
`IMG_PLACEHOLDER` token survives. -/
theorem placeholder_clobbered_with_eleven_images :
    pyContains "picK.png" c1Md = false ∧
    pyContains "picB.png0" c1Md = true ∧
    pyContains "IMG_PLACEHOLDER" c1Md = false := by
  exact ⟨by decide, by decide, by decide⟩

end WorkSummary
